import Mathlib

/-!
Verification of the 2bshrd peer-to-peer file-sharing daemon.

This file gives a shallow embedding of the core of the program:
the framed wire protocol (`shrd/protocol.py`), the transfer service
(`shrd/transfer.py`), the discovery and liveness subsystem
(`shrd/discovery.py`), and proves the testable properties stated in the
specification about them.  Machine integers are modelled as `Nat`/`Int`
with explicit reductions modulo `2 ^ 32` where the source relies on
fixed-width arithmetic; fallible operations return `Option`/`Except`.
-/

namespace Shrd

/-! ## Decimal digits

Models Python `str(n)` for a natural number: the standard decimal
representation, produced here as a list of ASCII byte values.  The code
uses it both for JSON numbers (`json.dumps`) and for the duplicate-name
counter (`f"{stem}_{counter}{suffix}"`). -/

/-- Fuel-driven decimal printer; `printNatBytes` supplies enough fuel. -/
def printNatAux : Nat → Nat → List Nat
  | 0, _ => []
  | fuel + 1, n => if n < 10 then [48 + n] else printNatAux fuel (n / 10) ++ [48 + n % 10]

/-- ASCII decimal representation of `n` (what Python `str(n)` produces). -/
def printNatBytes (n : Nat) : List Nat := printNatAux (n + 1) n

/-- Value of a list of ASCII digit bytes read as a decimal numeral. -/
def digitsVal (l : List Nat) : Nat := l.foldl (fun a b => a * 10 + (b - 48)) 0

theorem digitsVal_append (l m : List Nat) :
    digitsVal (l ++ m) = m.foldl (fun a b => a * 10 + (b - 48)) (digitsVal l) := by
  simp [digitsVal, List.foldl_append]

theorem digitsVal_printNatAux (fuel n : Nat) (h : n < 10 ^ fuel) (hf : 0 < fuel) :
    digitsVal (printNatAux fuel n) = n := by
  induction fuel generalizing n with
  | zero => omega
  | succ f ih =>
    by_cases h10 : n < 10
    · simp [printNatAux, h10, digitsVal]
    · have hmul : n < 10 ^ f * 10 := by
        rw [← pow_succ]
        exact h
      have hdiv : n / 10 < 10 ^ f := Nat.div_lt_of_lt_mul (by omega)
      have hf0 : 0 < f := by
        by_contra h0
        interval_cases f <;> omega
      simp only [printNatAux, h10, if_false]
      rw [digitsVal_append, ih _ hdiv hf0]
      simp [Nat.add_sub_cancel_left]
      omega

theorem digitsVal_printNatBytes (n : Nat) : digitsVal (printNatBytes n) = n := by
  have h : n < 10 ^ (n + 1) := by
    calc n < 2 ^ n := Nat.lt_two_pow n
    _ ≤ 10 ^ n := Nat.pow_le_pow_left (by norm_num) _
    _ ≤ 10 ^ (n + 1) := Nat.pow_le_pow_right (by norm_num) (by omega)
  exact digitsVal_printNatAux (n + 1) n h (Nat.succ_pos n)

theorem printNatAux_digits (fuel n : Nat) :
    ∀ b ∈ printNatAux fuel n, 48 ≤ b ∧ b ≤ 57 := by
  induction fuel generalizing n with
  | zero => simp [printNatAux]
  | succ f ih =>
    by_cases h10 : n < 10
    · simp only [printNatAux, h10, if_true]
      intro b hb
      simp at hb
      omega
    · simp only [printNatAux, h10, if_false]
      intro b hb
      rcases List.mem_append.mp hb with h1 | h2
      · exact ih _ b h1
      · simp at h2
        omega

theorem printNatBytes_digits (n : Nat) : ∀ b ∈ printNatBytes n, 48 ≤ b ∧ b ≤ 57 :=
  printNatAux_digits (n + 1) n

theorem printNatBytes_ne_nil (n : Nat) : printNatBytes n ≠ [] := by
  unfold printNatBytes printNatAux
  by_cases h10 : n < 10 <;> simp [h10]

/-- Decimal digits are injective: two numbers printing alike are equal. -/
theorem printNatBytes_injective : Function.Injective printNatBytes := by
  intro a b h
  have := digitsVal_printNatBytes a
  rw [h, digitsVal_printNatBytes] at this
  omega

/-! ## TransferProgress (`shrd/transfer.py`, lines 26-39)

The progress record and its `percent` property; the byte counters are
natural numbers and the percentage is modelled as a rational, standing in
for the Python float (the guarded formula is exact in either field). -/

structure TransferProgress where
  file_name : String
  bytes_transferred : Nat
  total_bytes : Nat
  device_name : String
  is_upload : Bool

/-- `TransferProgress.percent`: `100.0` when `total_bytes == 0`, otherwise
`bytes_transferred / total_bytes * 100`. -/
def TransferProgress.percent (p : TransferProgress) : ℚ :=
  if p.total_bytes = 0 then 100
  else (p.bytes_transferred : ℚ) / (p.total_bytes : ℚ) * 100

/-- C10: the `percent` property is total: it returns exactly 100 when
`total_bytes` is zero, otherwise `bytes_transferred / total_bytes × 100`,
and in the division branch the divisor is nonzero. -/
theorem percent_total (p : TransferProgress) :
    (p.total_bytes = 0 → p.percent = 100) ∧
    (p.total_bytes ≠ 0 →
      (p.total_bytes : ℚ) ≠ 0 ∧
      p.percent = (p.bytes_transferred : ℚ) / (p.total_bytes : ℚ) * 100) := by
  constructor
  · intro h
    simp [TransferProgress.percent, h]
  · intro h
    refine ⟨by exact_mod_cast h, ?_⟩
    simp [TransferProgress.percent, h]

/-- Witness for C10 at a concrete progress value. -/
theorem percent_total_witness :
    ((TransferProgress.mk "a" 3 0 "d" true).total_bytes = 0 →
      (TransferProgress.mk "a" 3 0 "d" true).percent = 100) ∧
    ((TransferProgress.mk "a" 3 0 "d" true).total_bytes ≠ 0 →
      ((TransferProgress.mk "a" 3 0 "d" true).total_bytes : ℚ) ≠ 0 ∧
      (TransferProgress.mk "a" 3 0 "d" true).percent =
        ((TransferProgress.mk "a" 3 0 "d" true).bytes_transferred : ℚ) /
          ((TransferProgress.mk "a" 3 0 "d" true).total_bytes : ℚ) * 100) :=
  percent_total (TransferProgress.mk "a" 3 0 "d" true)

/-! ## Backoff delays (C7)

`transfer.py` lines 91-94: `min(0.5 * 2 ** (attempt - 1) + uniform(0, 0.5), 5.0)`.
`discovery.py` lines 234-237: `min(1.0 * 2 ** (attempt - 1) + uniform(0, 1), 30.0)`.
The jitter drawn by `random.uniform(0, m)` is modelled as an arbitrary
rational `j` with `0 ≤ j < m`; attempts are numbered from 1. -/

/-- Generic backoff delay `min(base * 2^(attempt-1) + jitter, cap)`. -/
def backoffDelay (base cap j : ℚ) (attempt : Nat) : ℚ :=
  min (base * 2 ^ (attempt - 1) + j) cap

/-- Connection-retry delay (`RETRY_BASE_DELAY = 0.5`, `RETRY_MAX_DELAY = 5.0`). -/
def connRetryDelay (j : ℚ) (attempt : Nat) : ℚ := backoffDelay (1 / 2) 5 j attempt

/-- Reconnect delay (`RECONNECT_BASE_DELAY = 1.0`, `RECONNECT_MAX_DELAY = 30.0`). -/
def reconnectDelay (j : ℚ) (attempt : Nat) : ℚ := backoffDelay 1 30 j attempt

theorem backoffDelay_le_cap (base cap j : ℚ) (attempt : Nat) :
    backoffDelay base cap j attempt ≤ cap := min_le_right _ _

theorem backoffDelay_mono (base cap jmax : ℚ) (hbase : 0 < base) (hjm : jmax ≤ base)
    (j j2 : ℚ) (hj : 0 ≤ j) (hjlt : j < jmax) (hj2 : 0 ≤ j2)
    (attempt : Nat) (hatt : 1 ≤ attempt) :
    backoffDelay base cap j attempt ≤ backoffDelay base cap j2 (attempt + 1) := by
  unfold backoffDelay
  apply min_le_min _ (le_refl cap)
  have hp : (0 : ℚ) < 2 ^ (attempt - 1) := by positivity
  have h1 : (1 : ℚ) ≤ 2 ^ (attempt - 1) := one_le_pow₀ (by norm_num)
  have hstep : base * 2 ^ (attempt + 1 - 1) = base * 2 ^ (attempt - 1) * 2 := by
    have : attempt + 1 - 1 = (attempt - 1) + 1 := by omega
    rw [this, pow_succ]
    ring
  rw [hstep]
  have hjb : j < base * 2 ^ (attempt - 1) := by
    calc j < jmax := hjlt
    _ ≤ base := hjm
    _ = base * 1 := by ring
    _ ≤ base * 2 ^ (attempt - 1) := by
        apply mul_le_mul_of_nonneg_left h1 (le_of_lt hbase)
  nlinarith

/-- C7: for both the connection-retry backoff and the reconnect backoff,
for every choice of jitter values within its range the delay sequence is
non-decreasing across successive attempts, and no delay exceeds the
configured maximum (5 s resp. 30 s). -/
theorem backoff_monotone_and_capped (attempt : Nat) (hatt : 1 ≤ attempt)
    (j j2 : ℚ) (hj : 0 ≤ j) (hj2 : 0 ≤ j2) :
    (j < 1 / 2 → connRetryDelay j attempt ≤ connRetryDelay j2 (attempt + 1)) ∧
    connRetryDelay j attempt ≤ 5 ∧
    (j < 1 → reconnectDelay j attempt ≤ reconnectDelay j2 (attempt + 1)) ∧
    reconnectDelay j attempt ≤ 30 := by
  refine ⟨?_, backoffDelay_le_cap _ _ _ _, ?_, backoffDelay_le_cap _ _ _ _⟩
  · intro hjlt
    exact backoffDelay_mono (1 / 2) 5 (1 / 2) (by norm_num) (le_refl _) j j2 hj hjlt hj2
      attempt hatt
  · intro hjlt
    exact backoffDelay_mono 1 30 1 (by norm_num) (le_refl _) j j2 hj hjlt hj2 attempt hatt

/-- Witness for C7 at attempt 1 with zero jitter. -/
theorem backoff_monotone_and_capped_witness :
    ((0 : ℚ) < 1 / 2 → connRetryDelay 0 1 ≤ connRetryDelay 0 2) ∧
    connRetryDelay (0 : ℚ) 1 ≤ 5 ∧
    ((0 : ℚ) < 1 → reconnectDelay 0 1 ≤ reconnectDelay 0 2) ∧
    reconnectDelay (0 : ℚ) 1 ≤ 30 :=
  backoff_monotone_and_capped 1 (by decide) 0 0 (by norm_num) (by norm_num)

/-! ## Liveness monitor (`shrd/discovery.py`, lines 173-213)

Per-device bookkeeping of `DeviceDiscovery`: the `is_online` flag of the
`Device` record together with the `_consecutive_failures`,
`_reconnect_attempts` and `_pending_reconnects` entries for that device.
`checkDeviceStep` is one execution of `_check_device_with_retry` for a
device whose probe round had outcome `probeOk`; the event loop is assumed
present (`self._loop` is set once `start` ran). -/

structure DevTrack where
  isOnline : Bool
  failures : Nat
  reconnects : Nat
  pending : Bool
deriving DecidableEq

structure CheckOut where
  track : DevTrack
  persisted : Bool
  statusEvent : Option Bool
  scheduledReconnect : Bool
deriving DecidableEq

/-- A probe round: up to `PING_RETRIES = 2` ping attempts; the round
succeeds if either attempt does. -/
def pingRound (p1 p2 : Bool) : Bool := p1 || p2

/-- One pass of `_check_device_with_retry` after the probe round. -/
def checkDeviceStep (t : DevTrack) (probeOk : Bool) : CheckOut :=
  if probeOk then
    if t.isOnline then
      { track := { isOnline := true, failures := 0, reconnects := 0, pending := false }
        persisted := false, statusEvent := none, scheduledReconnect := false }
    else
      { track := { isOnline := true, failures := 0, reconnects := 0, pending := false }
        persisted := true, statusEvent := some true, scheduledReconnect := false }
  else
    let fails := t.failures + 1
    if 2 ≤ fails ∧ t.isOnline = true then
      { track := { isOnline := false, failures := fails, reconnects := t.reconnects,
                   pending := true }
        persisted := true, statusEvent := some false,
        scheduledReconnect := !t.pending }
    else
      { track := { isOnline := t.isOnline, failures := fails, reconnects := t.reconnects,
                   pending := t.pending }
        persisted := false, statusEvent := none, scheduledReconnect := false }

/-- C5: an online device with zero consecutive failures survives one failed
probe round; a second consecutive failed round flips it offline, persists
the state, emits the offline status event, and schedules a reconnect task
exactly when none is pending. -/
theorem offline_hysteresis (t : DevTrack) (p1 p2 : Bool)
    (honline : t.isOnline = true) (hfail : t.failures = 0)
    (hround : pingRound p1 p2 = false) :
    (checkDeviceStep t (pingRound p1 p2)).track.isOnline = true ∧
    (checkDeviceStep t (pingRound p1 p2)).statusEvent = none ∧
    ((checkDeviceStep (checkDeviceStep t (pingRound p1 p2)).track
        (pingRound p1 p2)).track.isOnline = false ∧
     (checkDeviceStep (checkDeviceStep t (pingRound p1 p2)).track
        (pingRound p1 p2)).persisted = true ∧
     (checkDeviceStep (checkDeviceStep t (pingRound p1 p2)).track
        (pingRound p1 p2)).statusEvent = some false ∧
     (checkDeviceStep (checkDeviceStep t (pingRound p1 p2)).track
        (pingRound p1 p2)).scheduledReconnect = !t.pending) := by
  rw [hround]
  simp [checkDeviceStep, honline, hfail]

/-- Witness for C5 on a concrete fresh online device. -/
theorem offline_hysteresis_witness :
    (checkDeviceStep (DevTrack.mk true 0 0 false) (pingRound false false)).track.isOnline
      = true ∧
    (checkDeviceStep (DevTrack.mk true 0 0 false) (pingRound false false)).statusEvent
      = none ∧
    ((checkDeviceStep (checkDeviceStep (DevTrack.mk true 0 0 false)
        (pingRound false false)).track (pingRound false false)).track.isOnline = false ∧
     (checkDeviceStep (checkDeviceStep (DevTrack.mk true 0 0 false)
        (pingRound false false)).track (pingRound false false)).persisted = true ∧
     (checkDeviceStep (checkDeviceStep (DevTrack.mk true 0 0 false)
        (pingRound false false)).track (pingRound false false)).statusEvent
       = some false ∧
     (checkDeviceStep (checkDeviceStep (DevTrack.mk true 0 0 false)
        (pingRound false false)).track (pingRound false false)).scheduledReconnect
       = !(DevTrack.mk true 0 0 false).pending) :=
  offline_hysteresis (DevTrack.mk true 0 0 false) false false rfl rfl rfl

/-! ## New-device notifications (`shrd/discovery.py`, lines 93-94 and 298-345)

`add_service` (and `update_service`, which simply delegates to it) decides
whether to emit the `on_new_device` event.  A callback is modelled by the
facts it depends on: the advertised identifier, whether the service info
and addresses resolved (`infoOk`), and whether `config.get_device`
returned a record at that moment (`known` — the device registry can be
mutated between callbacks, e.g. by the UI enrolling the device, so it is
a per-call observation).  `_seen_ids` is the in-memory seen-set, seeded
from the persisted device identifiers in `start`. -/

structure SvcCall where
  deviceId : String
  infoOk : Bool
  known : Bool

/-- One `add_service` callback: returns the new seen-set and whether the
`on_new_device` event fired. -/
def addServiceStep (localId : String) (seen : List String) (c : SvcCall) :
    List String × Bool :=
  if c.infoOk = false then (seen, false)
  else if c.deviceId = localId then (seen, false)
  else if c.known then (seen, false)
  else if c.deviceId ∈ seen then (seen, false)
  else (c.deviceId :: seen, true)

/-- A whole sequence of mDNS callbacks; returns the final seen-set and the
identifiers for which `on_new_device` fired, in order. -/
def runCalls (localId : String) : List SvcCall → List String → List String × List String
  | [], seen => (seen, [])
  | c :: cs, seen =>
    let s := addServiceStep localId seen c
    let r := runCalls localId cs s.1
    (r.1, (if s.2 then [c.deviceId] else []) ++ r.2)

theorem addServiceStep_seen_mono (localId : String) (seen : List String) (c : SvcCall) :
    ∀ x ∈ seen, x ∈ (addServiceStep localId seen c).1 := by
  intro x hx
  unfold addServiceStep
  split
  · exact hx
  · split
    · exact hx
    · split
      · exact hx
      · split
        · exact hx
        · exact List.mem_cons_of_mem _ hx

theorem addServiceStep_fired (localId : String) (seen : List String) (c : SvcCall)
    (h : (addServiceStep localId seen c).2 = true) :
    (addServiceStep localId seen c).1 = c.deviceId :: seen ∧ c.deviceId ∉ seen := by
  by_cases h1 : c.infoOk = false
  · simp [addServiceStep, h1] at h
  · by_cases h2 : c.deviceId = localId
    · simp [addServiceStep, h1, h2] at h
    · by_cases h3 : c.known = true
      · simp [addServiceStep, h1, h2, h3] at h
      · by_cases h4 : c.deviceId ∈ seen
        · simp [addServiceStep, h1, h2, h3, h4] at h
        · refine ⟨?_, h4⟩
          simp [addServiceStep, h1, h2, h3, h4]

theorem runCalls_count_zero (localId did : String) :
    ∀ (calls : List SvcCall) (seen : List String), did ∈ seen →
      (runCalls localId calls seen).2.count did = 0 := by
  intro calls
  induction calls with
  | nil => intro seen h; simp [runCalls]
  | cons c cs ih =>
    intro seen hmem
    cases hfire : (addServiceStep localId seen c).2 with
    | false =>
      have ihx := ih _ (addServiceStep_seen_mono localId seen c did hmem)
      simp [runCalls, hfire, ihx]
    | true =>
      obtain ⟨hset, hnot⟩ := addServiceStep_fired localId seen c hfire
      have hne : c.deviceId ≠ did := fun h => hnot (h ▸ hmem)
      have h2 : (runCalls localId cs (addServiceStep localId seen c).1).2.count did = 0 :=
        ih _ (addServiceStep_seen_mono localId seen c did hmem)
      simp [runCalls, hfire, List.count_append, List.count_cons, h2, hne, Ne.symm hne]

/-- C6: across any sequence of mDNS add/update-service callbacks, with the
seen-set seeded by the persisted identifiers, `on_new_device` fires at
most once per identifier, and never for an identifier in the seed. -/
theorem new_device_at_most_once (localId : String) (calls : List SvcCall)
    (seed : List String) (did : String) :
    (runCalls localId calls seed).2.count did ≤ 1 ∧
    (did ∈ seed → (runCalls localId calls seed).2.count did = 0) := by
  constructor
  · induction calls generalizing seed with
    | nil => simp [runCalls]
    | cons c cs ih =>
      cases hfire : (addServiceStep localId seed c).2 with
      | false =>
        have ihx := ih (addServiceStep localId seed c).1
        simp [runCalls, hfire, ihx]
      | true =>
        obtain ⟨hset, hnot⟩ := addServiceStep_fired localId seed c hfire
        by_cases hid : did = c.deviceId
        · have h0 : (runCalls localId cs (addServiceStep localId seed c).1).2.count did
              = 0 := by
            apply runCalls_count_zero
            rw [hset, hid]
            exact List.mem_cons_self _ _
          rw [hid] at h0
          simp [runCalls, hfire, List.count_append, List.count_cons, h0, hid]
        · have ihx := ih (addServiceStep localId seed c).1
          simp [runCalls, hfire, List.count_append, List.count_cons, hid, Ne.symm hid, ihx]
  · intro hmem
    exact runCalls_count_zero localId did calls seed hmem

/-- Witness for C6 on a concrete trace: the same unseen identifier offered
twice fires once; a seeded identifier never fires. -/
theorem new_device_at_most_once_witness :
    (runCalls "me" [SvcCall.mk "d1" true false, SvcCall.mk "d1" true false]
        ["old"]).2.count "d1" ≤ 1 ∧
    ("old" ∈ ["old"] →
      (runCalls "me" [SvcCall.mk "d1" true false, SvcCall.mk "d1" true false]
        ["old"]).2.count "old" = 0) :=
  ⟨(new_device_at_most_once "me"
      [SvcCall.mk "d1" true false, SvcCall.mk "d1" true false] ["old"] "d1").1,
   (new_device_at_most_once "me"
      [SvcCall.mk "d1" true false, SvcCall.mk "d1" true false] ["old"] "old").2⟩

/-! ## Outbound connect with retry (`shrd/transfer.py`, lines 57-101)

`_connect_with_retry` makes up to `MAX_RETRIES = 3` attempts.  An attempt
either yields a live post-handshake session (`ok`), raises an exception
somewhere in connect/handshake (`exn`), or completes the read but the
reply is not `HELLO_ACK` (`rejected` — the code closes the socket and
falls through WITHOUT entering the `except` block).  The retry event
`on_connection_retry(device.name, attempt, max_retries)` is emitted only
inside the `except` block and only when `attempt < max_retries`. -/

inductive AttemptResult where
  | ok
  | exn
  | rejected
deriving DecidableEq

/-- The attempt loop: `attempt` is the 1-based attempt number, `rem` the
number of attempts still allowed.  Returns the successful attempt number
(`none` on failure) and the emitted retry events `(name, attempt, max)`
in order. -/
def connectGo (outcome : Nat → AttemptResult) (nm : String) (maxr : Nat) :
    Nat → Nat → Option Nat × List (String × Nat × Nat)
  | _, 0 => (none, [])
  | attempt, rem + 1 =>
    match outcome attempt with
    | .ok => (some attempt, [])
    | .rejected => connectGo outcome nm maxr (attempt + 1) rem
    | .exn =>
      let r := connectGo outcome nm maxr (attempt + 1) rem
      if attempt < maxr then (r.1, (nm, attempt, maxr) :: r.2) else r

/-- `_connect_with_retry` with the default `MAX_RETRIES = 3`. -/
def connectWithRetry (outcome : Nat → AttemptResult) (nm : String) :
    Option Nat × List (String × Nat × Nat) :=
  connectGo outcome nm 3 1 3

/-- Counterexample to C8 as stated: when all three attempts fail with an
exception, the third failed attempt emits no retry event — only attempts
1 and 2 do — even though the call returns failure after three attempts. -/
theorem connect_retry_event_counterexample :
    connectWithRetry (fun _ => AttemptResult.exn) "peer"
      = (none, [("peer", 1, 3), ("peer", 2, 3)]) ∧
    ("peer", 3, 3) ∉ (connectWithRetry (fun _ => AttemptResult.exn) "peer").2 := by
  constructor
  · rfl
  · decide

/-- The behaviour of one run as a function of the three attempt outcomes,
following the amended claim: success at the first succeeding attempt, a
retry event exactly for attempts that fail with an exception and are not
the final attempt, failure only after all three attempts. -/
def connectRetrySpec (o1 o2 o3 : AttemptResult) (nm : String) :
    Option Nat × List (String × Nat × Nat) :=
  match o1 with
  | .ok => (some 1, [])
  | _ =>
    let e1 : List (String × Nat × Nat) :=
      if o1 = AttemptResult.exn then [(nm, 1, 3)] else []
    match o2 with
    | .ok => (some 2, e1)
    | _ =>
      let e2 : List (String × Nat × Nat) :=
        if o2 = AttemptResult.exn then [(nm, 2, 3)] else []
      match o3 with
      | .ok => (some 3, e1 ++ e2)
      | _ => (none, e1 ++ e2)

/-- C8 (amended): the connect operation makes up to 3 attempts, returns
the session of the first successful attempt, emits the retry event with
`(peer_name, attempt, max)` exactly for the non-final attempts that fail
with an exception (the final failure and non-exception handshake
rejections emit none), and returns failure only after all 3 attempts. -/
theorem connect_retry_behaviour (outcome : Nat → AttemptResult) (nm : String) :
    connectWithRetry outcome nm
      = connectRetrySpec (outcome 1) (outcome 2) (outcome 3) nm := by
  rcases h1 : outcome 1 with - | - | - <;>
    rcases h2 : outcome 2 with - | - | - <;>
      rcases h3 : outcome 3 with - | - | - <;>
        simp [connectWithRetry, connectGo, connectRetrySpec, h1, h2, h3]

/-! ## Non-colliding destination paths (`shrd/transfer.py`, lines 216-225)

`_handle_file_offer` picks `dest_path = downloads_dir / name` and, while
that path exists, retries with `f"{stem}_{counter}{suffix}"` for
`counter = 1, 2, …`.  The filesystem is modelled by the (finite) list of
paths that exist; `pathStem`/`pathSuffix` follow `pathlib`'s rule: the
suffix is `name[i:]` for the last dot index `i` when `0 < i < len - 1`,
else empty. -/

theorem stringExt (a b : String) (h : a.data = b.data) : a = b := congrArg String.mk h

/-- Python `str(n)` as a Lean string. -/
def natStr (n : Nat) : String := String.mk ((printNatBytes n).map Char.ofNat)

theorem char_digit_roundtrip : ∀ b : Nat, 48 ≤ b → b ≤ 57 → (Char.ofNat b).toNat = b := by
  decide

theorem natStr_injective : Function.Injective natStr := by
  intro a b h
  have hd : (printNatBytes a).map Char.ofNat = (printNatBytes b).map Char.ofNat :=
    congrArg String.data h
  apply printNatBytes_injective
  have key : ∀ l : List Nat, (∀ x ∈ l, 48 ≤ x ∧ x ≤ 57) →
      (l.map Char.ofNat).map Char.toNat = l := by
    intro l hl
    induction l with
    | nil => rfl
    | cons x xs ih =>
      have hx := hl x (List.mem_cons_self _ _)
      simp only [List.map_cons, List.cons.injEq]
      exact ⟨char_digit_roundtrip x hx.1 hx.2,
        ih fun y hy => hl y (List.mem_cons_of_mem _ hy)⟩
  calc printNatBytes a = ((printNatBytes a).map Char.ofNat).map Char.toNat :=
        (key _ (printNatBytes_digits a)).symm
    _ = ((printNatBytes b).map Char.ofNat).map Char.toNat := by rw [hd]
    _ = printNatBytes b := key _ (printNatBytes_digits b)

/-- Index of the last `'.'` in the character list, if any (Python `rfind`). -/
def lastDotIdxAux : List Char → Nat → Option Nat
  | [], _ => none
  | c :: cs, i =>
    match lastDotIdxAux cs (i + 1) with
    | some j => some j
    | none => if c = '.' then some i else none

/-- `pathlib.PurePath.stem` of a bare file name. -/
def pathStem (name : String) : String :=
  match lastDotIdxAux name.data 0 with
  | some i => if 0 < i ∧ i < name.data.length - 1 then String.mk (name.data.take i) else name
  | none => name

/-- `pathlib.PurePath.suffix` of a bare file name. -/
def pathSuffix (name : String) : String :=
  match lastDotIdxAux name.data 0 with
  | some i => if 0 < i ∧ i < name.data.length - 1 then String.mk (name.data.drop i) else ""
  | none => ""

/-- Candidate destination paths tried by the while loop, in order: the
plain name first, then `stem_1suffix`, `stem_2suffix`, … -/
def destCandidate (ddir name : String) : Nat → String
  | 0 => ddir ++ "/" ++ name
  | k + 1 => ddir ++ "/" ++ pathStem name ++ "_" ++ natStr (k + 1) ++ pathSuffix name

theorem destCandidate_succ_injective (ddir name : String) :
    Function.Injective fun k : Nat => destCandidate ddir name (k + 1) := by
  intro a b h
  simp only [destCandidate] at h
  have hd := congrArg String.data h
  simp only [String.data_append, List.append_assoc] at hd
  have h1 := List.append_cancel_left hd
  have h2 := List.append_cancel_left h1
  have h3 := List.append_cancel_left h2
  have h4 := List.append_cancel_left h3
  have h5 : (natStr (a + 1)).data = (natStr (b + 1)).data := List.append_cancel_right h4
  have h6 : natStr (a + 1) = natStr (b + 1) := stringExt _ _ h5
  have := natStr_injective h6
  omega

theorem destCandidate_exists_free (existing : List String) (ddir name : String) :
    ∃ n, destCandidate ddir name n ∉ existing := by
  by_contra hall
  push_neg at hall
  have hsub : ((List.range (existing.length + 1)).map
      fun k => destCandidate ddir name (k + 1)) ⊆ existing := by
    intro x hx
    simp only [List.mem_map, List.mem_range] at hx
    obtain ⟨k, -, rfl⟩ := hx
    exact hall _
  have hnod : ((List.range (existing.length + 1)).map
      fun k => destCandidate ddir name (k + 1)).Nodup :=
    (List.nodup_range _).map (destCandidate_succ_injective ddir name)
  have hle := (List.subperm_of_subset hnod hsub).length_le
  simp only [List.length_map, List.length_range] at hle
  omega

/-- The destination chosen by the duplicate-name while loop: the first
candidate that does not already exist. -/
def resolveDest (existing : List String) (ddir name : String) : String :=
  destCandidate ddir name (Nat.find (destCandidate_exists_free existing ddir name))

theorem resolveDest_not_mem (existing : List String) (ddir name : String) :
    resolveDest existing ddir name ∉ existing :=
  Nat.find_spec (destCandidate_exists_free existing ddir name)

/-- C4: the chosen destination never collides with an existing path; if
`<dir>/<name>` is free it is chosen unchanged; and receiving `x.txt` twice
yields `x.txt` then `x_1.txt`. -/
theorem dest_path_no_overwrite :
    (∀ (existing : List String) (ddir name : String),
      resolveDest existing ddir name ∉ existing) ∧
    (∀ (existing : List String) (ddir name : String),
      (ddir ++ "/" ++ name) ∉ existing →
        resolveDest existing ddir name = ddir ++ "/" ++ name) ∧
    (∀ ddir : String,
      resolveDest [] ddir "x.txt" = ddir ++ "/" ++ "x.txt" ∧
      resolveDest [ddir ++ "/" ++ "x.txt"] ddir "x.txt" = ddir ++ "/" ++ "x_1.txt") := by
  refine ⟨resolveDest_not_mem, ?_, ?_⟩
  · intro existing ddir name hfree
    unfold resolveDest
    have h0 : Nat.find (destCandidate_exists_free existing ddir name) = 0 := by
      rw [Nat.find_eq_iff]
      exact ⟨hfree, by omega⟩
    rw [h0]
    rfl
  · intro ddir
    constructor
    · unfold resolveDest
      have h0 : Nat.find (destCandidate_exists_free [] ddir "x.txt") = 0 := by
        rw [Nat.find_eq_iff]
        exact ⟨List.not_mem_nil _, by omega⟩
      rw [h0]
      rfl
    · unfold resolveDest
      have hne : destCandidate ddir "x.txt" 1 ≠ ddir ++ "/" ++ "x.txt" := by
        intro h
        have hd := congrArg String.data h
        simp only [destCandidate, String.data_append, List.append_assoc] at hd
        have := List.append_cancel_left hd
        simp [natStr, printNatBytes, printNatAux, pathStem, pathSuffix,
          lastDotIdxAux] at this
      have h1 : Nat.find (destCandidate_exists_free
          [ddir ++ "/" ++ "x.txt"] ddir "x.txt") = 1 := by
        rw [Nat.find_eq_iff]
        refine ⟨by simpa using hne, ?_⟩
        intro k hk
        have hk0 : k = 0 := by omega
        subst hk0
        simp only [destCandidate]
        intro hcon
        exact hcon (List.mem_singleton.mpr rfl)
      rw [h1]
      apply stringExt
      simp only [destCandidate, String.data_append, List.append_assoc]
      congr 1

/-- Witness for C4 at concrete inputs. -/
theorem dest_path_no_overwrite_witness :
    resolveDest [] "d" "x.txt" ∉ ([] : List String) ∧
    resolveDest [] "d" "x.txt" = "d" ++ "/" ++ "x.txt" ∧
    (resolveDest [] "d" "x.txt" = "d" ++ "/" ++ "x.txt" ∧
      resolveDest ["d" ++ "/" ++ "x.txt"] "d" "x.txt" = "d" ++ "/" ++ "x_1.txt") :=
  ⟨dest_path_no_overwrite.1 [] "d" "x.txt",
   dest_path_no_overwrite.2.1 [] "d" "x.txt" (List.not_mem_nil _),
   dest_path_no_overwrite.2.2 "d"⟩

/-! ## SHA-256

Models Python `hashlib.sha256` (the standard FIPS 180-4 algorithm) over
byte lists, with 32-bit words as naturals reduced mod `2 ^ 32`.  Used by
`calculate_checksum`/`receive_file` in `shrd/protocol.py` and by the
pairing code in `shrd/discovery.py`. -/

def w32 (x : Nat) : Nat := x % 4294967296

def rotr32 (n x : Nat) : Nat := w32 ((x >>> n) ||| (x <<< (32 - n)))

def bsig0 (x : Nat) : Nat := (rotr32 2 x) ^^^ (rotr32 13 x) ^^^ (rotr32 22 x)

def bsig1 (x : Nat) : Nat := (rotr32 6 x) ^^^ (rotr32 11 x) ^^^ (rotr32 25 x)

def ssig0 (x : Nat) : Nat := (rotr32 7 x) ^^^ (rotr32 18 x) ^^^ (x >>> 3)

def ssig1 (x : Nat) : Nat := (rotr32 17 x) ^^^ (rotr32 19 x) ^^^ (x >>> 10)

def shaK : List Nat :=
  [1116352408, 1899447441, 3049323471, 3921009573, 961987163, 1508970993,
   2453635748, 2870763221, 3624381080, 310598401, 607225278, 1426881987,
   1925078388, 2162078206, 2614888103, 3248222580, 3835390401, 4022224774,
   264347078, 604807628, 770255983, 1249150122, 1555081692, 1996064986,
   2554220882, 2821834349, 2952996808, 3210313671, 3336571891, 3584528711,
   113926993, 338241895, 666307205, 773529912, 1294757372, 1396182291,
   1695183700, 1986661051, 2177026350, 2456956037, 2730485921, 2820302411,
   3259730800, 3345764771, 3516065817, 3600352804, 4094571909, 275423344,
   430227734, 506948616, 659060556, 883997877, 958139571, 1322822218,
   1537002063, 1747873779, 1955562222, 2024104815, 2227730452, 2361852424,
   2428436474, 2756734187, 3204031479, 3329325298]

structure Hash8 where
  a : Nat
  b : Nat
  c : Nat
  d : Nat
  e : Nat
  f : Nat
  g : Nat
  h : Nat

def initH : Hash8 :=
  ⟨1779033703, 3144134277, 1013904242, 2773480762,
   1359893119, 2600822924, 528734635, 1541459225⟩

def chF (x y z : Nat) : Nat := (x &&& y) ^^^ ((x ^^^ 0xffffffff) &&& z)

def majF (x y z : Nat) : Nat := (x &&& y) ^^^ (x &&& z) ^^^ (y &&& z)

def compressStep (s : Hash8) (kw : Nat × Nat) : Hash8 :=
  let t1 := w32 (s.h + bsig1 s.e + chF s.e s.f s.g + kw.1 + kw.2)
  let t2 := w32 (bsig0 s.a + majF s.a s.b s.c)
  ⟨w32 (t1 + t2), s.a, s.b, s.c, w32 (s.d + t1), s.e, s.f, s.g⟩

def nextW (w : List Nat) : Nat :=
  let i := w.length
  w32 (ssig1 (w.getD (i - 2) 0) + w.getD (i - 7) 0 + ssig0 (w.getD (i - 15) 0)
    + w.getD (i - 16) 0)

def extendW : List Nat → Nat → List Nat
  | w, 0 => w
  | w, n + 1 => extendW (w ++ [nextW w]) n

def block16 (b : List Nat) : List Nat :=
  (List.range 16).map fun i =>
    b.getD (4 * i) 0 * 16777216 + b.getD (4 * i + 1) 0 * 65536 +
      b.getD (4 * i + 2) 0 * 256 + b.getD (4 * i + 3) 0

def compressBlock (s : Hash8) (b : List Nat) : Hash8 :=
  let ws := extendW (block16 b) 48
  let t := (shaK.zip ws).foldl compressStep s
  ⟨w32 (s.a + t.a), w32 (s.b + t.b), w32 (s.c + t.c), w32 (s.d + t.d),
   w32 (s.e + t.e), w32 (s.f + t.f), w32 (s.g + t.g), w32 (s.h + t.h)⟩

def be64 (n : Nat) : List Nat :=
  [n / 72057594037927936 % 256, n / 281474976710656 % 256, n / 1099511627776 % 256,
   n / 4294967296 % 256, n / 16777216 % 256, n / 65536 % 256, n / 256 % 256, n % 256]

def shaPad (msg : List Nat) : List Nat :=
  let L := msg.length
  let r := (L + 1) % 64
  let k := if r ≤ 56 then 56 - r else 120 - r
  msg ++ [128] ++ List.replicate k 0 ++ be64 (8 * L)

def chunks64 : Nat → List Nat → List (List Nat)
  | 0, _ => []
  | _ + 1, [] => []
  | fuel + 1, l => l.take 64 :: chunks64 fuel (l.drop 64)

def wordBytes (w : Nat) : List Nat :=
  [w / 16777216 % 256, w / 65536 % 256, w / 256 % 256, w % 256]

/-- SHA-256 digest (32 bytes) of a byte list. -/
def sha256 (msg : List Nat) : List Nat :=
  let p := shaPad msg
  let s := (chunks64 p.length p).foldl compressBlock initH
  wordBytes s.a ++ wordBytes s.b ++ wordBytes s.c ++ wordBytes s.d ++
    wordBytes s.e ++ wordBytes s.f ++ wordBytes s.g ++ wordBytes s.h

def hexDigitByte (d : Nat) : Nat := if d < 10 then 48 + d else 87 + d

def byteHex (b : Nat) : List Nat := [hexDigitByte (b / 16), hexDigitByte (b % 16)]

def bytesToHexStr (l : List Nat) : String :=
  String.mk ((l.foldr (fun b acc => byteHex b ++ acc) []).map Char.ofNat)

/-- Python `hashlib.sha256(data).hexdigest()`: lowercase hex digest. -/
def sha256hex (msg : List Nat) : String := bytesToHexStr (sha256 msg)

/-- UTF-8 encoding of one character (Python `str.encode()`). -/
def utf8Char (c : Char) : List Nat :=
  let n := c.toNat
  if n < 128 then [n]
  else if n < 2048 then [192 + n / 64, 128 + n % 64]
  else if n < 65536 then [224 + n / 4096, 128 + n / 64 % 64, 128 + n % 64]
  else [240 + n / 262144, 128 + n / 4096 % 64, 128 + n / 64 % 64, 128 + n % 64]

/-- UTF-8 encoding of a string (Python `str.encode()`). -/
def utf8Encode (s : String) : List Nat := s.data.foldr (fun c acc => utf8Char c ++ acc) []

theorem wordBytes_lt (w : Nat) : ∀ b ∈ wordBytes w, b < 256 := by
  intro b hb
  simp only [wordBytes, List.mem_cons, List.not_mem_nil, or_false] at hb
  rcases hb with h | h | h | h <;> omega

theorem sha256_bytes_lt (msg : List Nat) : ∀ b ∈ sha256 msg, b < 256 := by
  intro b hb
  simp only [sha256, List.mem_append] at hb
  rcases hb with ((((((h | h) | h) | h) | h) | h) | h) | h <;> exact wordBytes_lt _ b h

theorem sha256_length (msg : List Nat) : (sha256 msg).length = 32 := by
  simp [sha256, wordBytes]

theorem hexFold_length (l : List Nat) :
    (l.foldr (fun b acc => byteHex b ++ acc) []).length = 2 * l.length := by
  induction l with
  | nil => rfl
  | cons x xs ih =>
    have hbl : (byteHex x).length = 2 := rfl
    simp only [List.foldr_cons, List.length_append, ih, List.length_cons, hbl]
    omega

theorem sha256hex_length (msg : List Nat) : (sha256hex msg).data.length = 64 := by
  simp [sha256hex, bytesToHexStr, hexFold_length, sha256_length]

theorem hexDigitChar_mem :
    ∀ d : Nat, d < 16 → Char.ofNat (hexDigitByte d) ∈ ("0123456789abcdef".data) := by
  decide

theorem hexFold_mem (l : List Nat) (hl : ∀ x ∈ l, x < 256) :
    ∀ b ∈ l.foldr (fun y acc => byteHex y ++ acc) [], ∃ d, d < 16 ∧ b = hexDigitByte d := by
  induction l with
  | nil => simp
  | cons x xs ih =>
    intro b hb
    simp only [List.foldr_cons, List.mem_append] at hb
    rcases hb with h | h
    · have hx := hl x (List.mem_cons_self _ _)
      simp only [byteHex, List.mem_cons, List.not_mem_nil, or_false] at h
      rcases h with h | h
      · exact ⟨x / 16, by omega, h⟩
      · exact ⟨x % 16, by omega, h⟩
    · exact ih (fun y hy => hl y (List.mem_cons_of_mem _ hy)) b h

theorem sha256hex_chars (msg : List Nat) :
    ∀ c ∈ (sha256hex msg).data, c ∈ ("0123456789abcdef".data) := by
  intro c hc
  simp only [sha256hex, bytesToHexStr] at hc
  rw [List.mem_map] at hc
  obtain ⟨b, hb, rfl⟩ := hc
  obtain ⟨d, hd, rfl⟩ := hexFold_mem (sha256 msg) (sha256_bytes_lt msg) b hb
  exact hexDigitChar_mem d hd

theorem upper_hex_mem :
    ∀ c ∈ ("0123456789abcdef".data), Char.toUpper c ∈ ("0123456789ABCDEF".data) := by
  decide

/-! ## Pairing code (`shrd/discovery.py`, lines 60-69)

`pairing_code` hashes `f"{device_id}:{ip}:{port}"`, takes the first 8 hex
characters of the digest, uppercases them and joins them as `XXXX-XXXX`.
The local IP is a parameter (the code reads it from a UDP socket). -/

/-- `DeviceDiscovery.pairing_code`: as the source computes it
(`hexdigest()[:8].upper()`, then `f"{h[:4]}-{h[4:]}"`). -/
def pairing_code (device_id local_ip : String) (port : Nat) : String :=
  let seed := device_id ++ ":" ++ local_ip ++ ":" ++ natStr port
  let hh := String.mk (((sha256hex (utf8Encode seed)).data.take 8).map Char.toUpper)
  String.mk (hh.data.take 4) ++ "-" ++ String.mk (hh.data.drop 4)

/-- The pairing code as the specification words it: the first 8 hex
characters of `SHA-256(device_id ":" local_ip ":" port)`, uppercased,
split at 4 around a hyphen. -/
def pairingCodeSpec (device_id local_ip : String) (port : Nat) : String :=
  let hex8 := ((sha256hex (utf8Encode
    (device_id ++ ":" ++ local_ip ++ ":" ++ natStr port))).data.take 8).map Char.toUpper
  String.mk (hex8.take 4) ++ "-" ++ String.mk (hex8.drop 4)

/-- C9: the pairing code equals the spec's derivation for every device
identifier, local IP and port, and it has the `XXXX-XXXX` shape: four
uppercase hex characters, a hyphen, four uppercase hex characters. -/
theorem pairing_code_correct (d ip : String) (p : Nat) :
    pairing_code d ip p = pairingCodeSpec d ip p ∧
    ∃ x y : List Char, x.length = 4 ∧ y.length = 4 ∧
      (pairing_code d ip p).data = x ++ '-' :: y ∧
      (∀ c ∈ x, c ∈ ("0123456789ABCDEF".data)) ∧
      (∀ c ∈ y, c ∈ ("0123456789ABCDEF".data)) := by
  constructor
  · rfl
  · have hlen : (sha256hex (utf8Encode (d ++ ":" ++ ip ++ ":" ++ natStr p))).data.length
        = 64 := sha256hex_length _
    set h64 := (sha256hex (utf8Encode (d ++ ":" ++ ip ++ ":" ++ natStr p))).data with hh
    set l8 := (h64.take 8).map Char.toUpper with hl8
    have hlen8 : l8.length = 8 := by
      rw [hl8, List.length_map, List.length_take, hlen]
      omega
    have hmem8 : ∀ c ∈ l8, c ∈ ("0123456789ABCDEF".data) := by
      intro c hc
      rw [hl8, List.mem_map] at hc
      obtain ⟨c0, hc0, rfl⟩ := hc
      exact upper_hex_mem c0 (sha256hex_chars _ c0 (List.mem_of_mem_take hc0))
    refine ⟨l8.take 4, l8.drop 4, ?_, ?_, ?_, ?_, ?_⟩
    · rw [List.length_take, hlen8]
      omega
    · rw [List.length_drop, hlen8]
    · show (String.mk (l8.take 4) ++ "-" ++ String.mk (l8.drop 4)).data
        = l8.take 4 ++ '-' :: l8.drop 4
      simp [String.data_append]
    · intro c hc
      exact hmem8 c (List.mem_of_mem_take hc)
    · intro c hc
      exact hmem8 c (List.mem_of_mem_drop hc)

/-! ## Checksum verification on transfers (`shrd/transfer.py`)

`_handle_file_offer` (lines 190-252) and `download_from_device`
(lines 417-476), from the accept decision to the final reply.  The bytes
received on the wire are a parameter; `receive_file` returns the SHA-256
hex digest of exactly those bytes.  The Python test
`if file_info.checksum and checksum != file_info.checksum` treats an
empty string like an absent checksum (truthiness), which the model
mirrors. -/

inductive MessageType where
  | HELLO
  | HELLO_ACK
  | FILE_OFFER
  | FILE_ACCEPT
  | FILE_REJECT
  | FILE_CHUNK
  | FILE_COMPLETE
  | FILE_ERROR
  | LIST_DIR_REQUEST
  | LIST_DIR_RESPONSE
  | FILE_DOWNLOAD_REQUEST
  | FILE_DOWNLOAD_START
  | PING
  | PONG
  | ERROR
deriving DecidableEq

/-- The wire codes of the `MessageType` enumeration. -/
def MessageType.code : MessageType → Nat
  | .HELLO => 1
  | .HELLO_ACK => 2
  | .FILE_OFFER => 10
  | .FILE_ACCEPT => 11
  | .FILE_REJECT => 12
  | .FILE_CHUNK => 13
  | .FILE_COMPLETE => 14
  | .FILE_ERROR => 15
  | .LIST_DIR_REQUEST => 20
  | .LIST_DIR_RESPONSE => 21
  | .FILE_DOWNLOAD_REQUEST => 22
  | .FILE_DOWNLOAD_START => 23
  | .PING => 30
  | .PONG => 31
  | .ERROR => 99

/-- `FileInfo` metadata (`shrd/protocol.py`, lines 69-83). -/
structure FileInfoM where
  name : String
  size : Nat
  path : String
  checksum : Option String
  is_dir : Bool

/-- `receive_file` returns the hex digest of the bytes it wrote. -/
def receiveFileChecksum (data : List Nat) : String := sha256hex data

/-- The accept decision of `_handle_file_offer`: `auto_accept`, else the
`on_transfer_request` hook when one is registered, else reject. -/
def acceptDecision (autoAccept : Bool) (hookAccepts : Option Bool) : Bool :=
  if autoAccept then true
  else match hookAccepts with
    | some b => b
    | none => false

structure OfferOutcome where
  sent : List MessageType
  destPath : Option String
  fileDeleted : Bool
  completeCalled : Bool
deriving DecidableEq

/-- `_handle_file_offer` observable outcome: the protocol replies sent in
order, the destination file (once written), whether it was deleted, and
whether the completion hook ran. -/
def handleFileOffer (autoAccept : Bool) (hookAccepts : Option Bool)
    (existing : List String) (ddir : String) (info : FileInfoM)
    (received : List Nat) : OfferOutcome :=
  if acceptDecision autoAccept hookAccepts = false then
    { sent := [MessageType.FILE_REJECT], destPath := none,
      fileDeleted := false, completeCalled := false }
  else
    let dest := resolveDest existing ddir info.name
    let checksum := receiveFileChecksum received
    let mismatch := match info.checksum with
      | some c => (c != "") && (checksum != c)
      | none => false
    if mismatch then
      { sent := [MessageType.FILE_ACCEPT, MessageType.FILE_ERROR],
        destPath := some dest, fileDeleted := true, completeCalled := false }
    else
      { sent := [MessageType.FILE_ACCEPT, MessageType.FILE_COMPLETE],
        destPath := some dest, fileDeleted := false, completeCalled := true }

structure DownloadOutcome where
  result : Option String
  fileDeleted : Bool
deriving DecidableEq

/-- `download_from_device` after `FILE_DOWNLOAD_START`: receive, verify,
on mismatch delete and fail, else return the destination path. -/
def downloadFromDevice (ddir : String) (info : FileInfoM)
    (received : List Nat) : DownloadOutcome :=
  let dest := ddir ++ "/" ++ info.name
  let checksum := receiveFileChecksum received
  let mismatch := match info.checksum with
    | some c => (c != "") && (checksum != c)
    | none => false
  if mismatch then { result := none, fileDeleted := true }
  else { result := some dest, fileDeleted := false }

/-- C3: for an accepted offer carrying a non-empty checksum, a mismatch
with the received bytes' digest sends `FILE_ACCEPT` then `FILE_ERROR`,
deletes the file, and neither sends `FILE_COMPLETE` nor calls the
completion hook; a match (or no checksum) sends `FILE_COMPLETE` with the
final path and calls the hook.  The client download likewise deletes and
fails on mismatch, and returns the destination on success. -/
theorem transfer_checksum_verification (autoAccept : Bool) (hookAccepts : Option Bool)
    (existing : List String) (ddir : String) (info : FileInfoM) (received : List Nat)
    (haccept : acceptDecision autoAccept hookAccepts = true) :
    (∀ c, info.checksum = some c → c ≠ "" → receiveFileChecksum received ≠ c →
      handleFileOffer autoAccept hookAccepts existing ddir info received
        = ⟨[MessageType.FILE_ACCEPT, MessageType.FILE_ERROR],
           some (resolveDest existing ddir info.name), true, false⟩ ∧
      MessageType.FILE_COMPLETE ∉
        (handleFileOffer autoAccept hookAccepts existing ddir info received).sent) ∧
    ((info.checksum = none ∨ info.checksum = some (receiveFileChecksum received)) →
      handleFileOffer autoAccept hookAccepts existing ddir info received
        = ⟨[MessageType.FILE_ACCEPT, MessageType.FILE_COMPLETE],
           some (resolveDest existing ddir info.name), false, true⟩) ∧
    (∀ c, info.checksum = some c → c ≠ "" → receiveFileChecksum received ≠ c →
      downloadFromDevice ddir info received = ⟨none, true⟩) ∧
    ((info.checksum = none ∨ info.checksum = some (receiveFileChecksum received)) →
      downloadFromDevice ddir info received = ⟨some (ddir ++ "/" ++ info.name), false⟩) := by
  refine ⟨?_, ?_, ?_, ?_⟩
  · intro c hc hne hmm
    constructor
    · simp [handleFileOffer, haccept, hc, hne, hmm, bne_iff_ne]
    · simp [handleFileOffer, haccept, hc, hne, hmm, bne_iff_ne]
  · intro hok
    rcases hok with hc | hc <;>
      simp [handleFileOffer, haccept, hc, bne_iff_ne]
  · intro c hc hne hmm
    simp [downloadFromDevice, hc, hne, hmm, bne_iff_ne]
  · intro hok
    rcases hok with hc | hc <;>
      simp [downloadFromDevice, hc, bne_iff_ne]

/-- Witness for C3 at concrete inputs. -/
theorem transfer_checksum_verification_witness :
    (∀ c, (FileInfoM.mk "a" 0 "" (some "00") false).checksum = some c → c ≠ "" →
      receiveFileChecksum [] ≠ c →
      handleFileOffer true none [] "d" (FileInfoM.mk "a" 0 "" (some "00") false) []
        = ⟨[MessageType.FILE_ACCEPT, MessageType.FILE_ERROR],
           some (resolveDest [] "d" (FileInfoM.mk "a" 0 "" (some "00") false).name),
           true, false⟩ ∧
      MessageType.FILE_COMPLETE ∉
        (handleFileOffer true none [] "d"
          (FileInfoM.mk "a" 0 "" (some "00") false) []).sent) ∧
    (((FileInfoM.mk "a" 0 "" (some "00") false).checksum = none ∨
      (FileInfoM.mk "a" 0 "" (some "00") false).checksum
        = some (receiveFileChecksum [])) →
      handleFileOffer true none [] "d" (FileInfoM.mk "a" 0 "" (some "00") false) []
        = ⟨[MessageType.FILE_ACCEPT, MessageType.FILE_COMPLETE],
           some (resolveDest [] "d" (FileInfoM.mk "a" 0 "" (some "00") false).name),
           false, true⟩) ∧
    (∀ c, (FileInfoM.mk "a" 0 "" (some "00") false).checksum = some c → c ≠ "" →
      receiveFileChecksum [] ≠ c →
      downloadFromDevice "d" (FileInfoM.mk "a" 0 "" (some "00") false) []
        = ⟨none, true⟩) ∧
    (((FileInfoM.mk "a" 0 "" (some "00") false).checksum = none ∨
      (FileInfoM.mk "a" 0 "" (some "00") false).checksum
        = some (receiveFileChecksum [])) →
      downloadFromDevice "d" (FileInfoM.mk "a" 0 "" (some "00") false) []
        = ⟨some ("d" ++ "/" ++ (FileInfoM.mk "a" 0 "" (some "00") false).name),
           false⟩) :=
  transfer_checksum_verification true none [] "d"
    (FileInfoM.mk "a" 0 "" (some "00") false) [] rfl

/-! ## JSON (`json.dumps` / `json.loads`)

The frame header is `json.dumps({"version": …, "type": …, "payload": …})`
encoded as UTF-8, and `Message.from_bytes` runs `json.loads` over the
header bytes.  The value grammar the protocol uses (null, booleans,
integers, strings, arrays, string-keyed objects) is modelled by `Json`;
the printer reproduces `json.dumps`'s output byte for byte with its
default separators `", "`/`": "` and `ensure_ascii=True` escaping (so the
output is pure ASCII and UTF-8 encoding is the identity on it).  The
parser accepts that output; like `json.loads` it skips ASCII whitespace
between tokens and understands every standard escape, surrogate pairs
included.  (Floats, which no protocol payload carries, and non-ASCII
bytes inside string literals are outside the model.) -/

mutual
inductive Json where
  | null : Json
  | bool (b : Bool) : Json
  | num (n : Int) : Json
  | str (s : String) : Json
  | arr (items : JsonList) : Json
  | obj (fields : JsonObj) : Json
inductive JsonList where
  | nil : JsonList
  | cons (hd : Json) (tl : JsonList) : JsonList
inductive JsonObj where
  | nil : JsonObj
  | cons (key : String) (val : Json) (tl : JsonObj) : JsonObj
end

/-- Four lowercase hex digits (the `%04x` of a `\uXXXX` escape). -/
def hex4 (n : Nat) : List Nat :=
  [hexDigitByte (n / 4096 % 16), hexDigitByte (n / 256 % 16),
   hexDigitByte (n / 16 % 16), hexDigitByte (n % 16)]

/-- `json.dumps` escaping of one character with `ensure_ascii=True`:
quote and backslash escaped, the five short control escapes, `\u00XX`
for other controls, printable ASCII literal, `\uXXXX` for the rest of
the BMP and a surrogate pair beyond it. -/
def escapeChar (c : Char) : List Nat :=
  let n := c.toNat
  if n = 34 then [92, 34]
  else if n = 92 then [92, 92]
  else if n = 8 then [92, 98]
  else if n = 9 then [92, 116]
  else if n = 10 then [92, 110]
  else if n = 12 then [92, 102]
  else if n = 13 then [92, 114]
  else if n < 32 then 92 :: 117 :: hex4 n
  else if n < 127 then [n]
  else if n < 65536 then 92 :: 117 :: hex4 n
  else (92 :: 117 :: hex4 (55296 + (n - 65536) / 1024)) ++
    (92 :: 117 :: hex4 (56320 + (n - 65536) % 1024))

def escStr : List Char → List Nat
  | [] => []
  | c :: cs => escapeChar c ++ escStr cs

/-- `json.dumps` of an integer (Python `str(int)`). -/
def printIntBytes (n : Int) : List Nat :=
  if n < 0 then 45 :: printNatBytes (-n).toNat else printNatBytes n.toNat

/-- An object key with the `": "` separator that follows it. -/
def printKey (k : String) : List Nat := 34 :: escStr k.data ++ [34, 58, 32]

mutual
def printJson : Json → List Nat
  | .null => [110, 117, 108, 108]
  | .bool true => [116, 114, 117, 101]
  | .bool false => [102, 97, 108, 115, 101]
  | .num n => printIntBytes n
  | .str s => 34 :: escStr s.data ++ [34]
  | .arr .nil => [91, 93]
  | .arr (.cons hd tl) => 91 :: (printJson hd ++ printItems tl)
  | .obj .nil => [123, 125]
  | .obj (.cons k v tl) => 123 :: (printKey k ++ (printJson v ++ printFields tl))
def printItems : JsonList → List Nat
  | .nil => [93]
  | .cons hd tl => 44 :: 32 :: (printJson hd ++ printItems tl)
def printFields : JsonObj → List Nat
  | .nil => [125]
  | .cons k v tl => 44 :: 32 :: (printKey k ++ (printJson v ++ printFields tl))
end

def isWsB (b : Nat) : Bool := b = 32 || b = 9 || b = 10 || b = 13

def skipWs (l : List Nat) : List Nat := l.dropWhile isWsB

def isDigitB (b : Nat) : Bool := 48 ≤ b && b ≤ 57

def hexValB (b : Nat) : Option Nat :=
  if 48 ≤ b ∧ b ≤ 57 then some (b - 48)
  else if 97 ≤ b ∧ b ≤ 102 then some (b - 87)
  else if 65 ≤ b ∧ b ≤ 70 then some (b - 55)
  else none

def hexVal4 (a b c d : Nat) : Option Nat :=
  match hexValB a, hexValB b, hexValB c, hexValB d with
  | some x, some y, some z, some w => some (x * 4096 + y * 256 + z * 16 + w)
  | _, _, _, _ => none

/-- The `\uXXXX` decoding pipeline of `json.loads`, split into small
steps: read four hex digits, reject lone surrogates, recombine pairs. -/
def unescapeLow2 (code : Nat) : Option Nat → List Nat → Option (Char × List Nat)
  | none, _ => none
  | some lo, rest4 =>
    if 56320 ≤ lo ∧ lo < 57344 then
      some (Char.ofNat (65536 + (code - 55296) * 1024 + (lo - 56320)), rest4)
    else none

def unescapeLow (code : Nat) (rest3 : List Nat) : Option (Char × List Nat) :=
  match rest3 with
  | 92 :: 117 :: e1 :: e2 :: e3 :: e4 :: rest4 =>
    unescapeLow2 code (hexVal4 e1 e2 e3 e4) rest4
  | _ => none

def unescapeCode : Option Nat → List Nat → Option (Char × List Nat)
  | none, _ => none
  | some code, rest3 =>
    if 55296 ≤ code ∧ code < 56320 then unescapeLow code rest3
    else if 56320 ≤ code ∧ code < 57344 then none
    else some (Char.ofNat code, rest3)

def unescapeU (rest2 : List Nat) : Option (Char × List Nat) :=
  match rest2 with
  | d1 :: d2 :: d3 :: d4 :: rest3 => unescapeCode (hexVal4 d1 d2 d3 d4) rest3
  | _ => none

/-- Decode one escape sequence (the input starts right after the
backslash): the named short escapes, or `\uXXXX` with surrogate-pair
recombination as `json.loads` performs it. -/
def unescape1 (l : List Nat) : Option (Char × List Nat) :=
  match l with
  | [] => none
  | e :: rest2 =>
    if e = 34 then some (Char.ofNat 34, rest2)
    else if e = 92 then some (Char.ofNat 92, rest2)
    else if e = 47 then some (Char.ofNat 47, rest2)
    else if e = 98 then some (Char.ofNat 8, rest2)
    else if e = 116 then some (Char.ofNat 9, rest2)
    else if e = 110 then some (Char.ofNat 10, rest2)
    else if e = 102 then some (Char.ofNat 12, rest2)
    else if e = 114 then some (Char.ofNat 13, rest2)
    else if e = 117 then unescapeU rest2
    else none

/-- JSON string-literal body scanner (after the opening quote), with the
accumulated characters in reverse.  Every step consumes at least one
byte, so any fuel of at least the input length is enough. -/
def parseStrAux : Nat → List Nat → List Char → Option (String × List Nat)
  | 0, _, _ => none
  | fuel + 1, l, acc =>
    match l with
    | [] => none
    | b :: rest =>
      if b = 34 then some (String.mk acc.reverse, rest)
      else if b = 92 then
        match unescape1 rest with
        | some (c, rest2) => parseStrAux fuel rest2 (c :: acc)
        | none => none
      else if 32 ≤ b ∧ b ≤ 126 then parseStrAux fuel rest (Char.ofNat b :: acc)
      else none

/-- JSON integer literal: optional minus sign, then a digit run. -/
def parseNum (l : List Nat) : Option (Json × List Nat) :=
  match l with
  | [] => none
  | b :: rest =>
    if b = 45 then
      let ds := rest.takeWhile isDigitB
      if ds.isEmpty then none
      else some (Json.num (-(digitsVal ds : Int)), rest.dropWhile isDigitB)
    else
      let ds := (b :: rest).takeWhile isDigitB
      if ds.isEmpty then none
      else some (Json.num (digitsVal ds : Int), (b :: rest).dropWhile isDigitB)

def expectBytes : List Nat → List Nat → Option (List Nat)
  | [], l => some l
  | b :: bs, x :: xs => if x = b then expectBytes bs xs else none
  | _ :: _, [] => none

mutual
def parseV : Nat → List Nat → Option (Json × List Nat)
  | 0, _ => none
  | fuel + 1, input =>
    match skipWs input with
    | [] => none
    | b :: rest =>
      if b = 110 then
        match expectBytes [117, 108, 108] rest with
        | some r => some (Json.null, r)
        | none => none
      else if b = 116 then
        match expectBytes [114, 117, 101] rest with
        | some r => some (Json.bool true, r)
        | none => none
      else if b = 102 then
        match expectBytes [97, 108, 115, 101] rest with
        | some r => some (Json.bool false, r)
        | none => none
      else if b = 34 then
        match parseStrAux (rest.length + 1) rest [] with
        | some (s, r) => some (Json.str s, r)
        | none => none
      else if b = 91 then
        match skipWs rest with
        | [] => none
        | b2 :: r2 =>
          if b2 = 93 then some (Json.arr JsonList.nil, r2)
          else
            match parseItems fuel (b2 :: r2) with
            | some (l, r3) => some (Json.arr l, r3)
            | none => none
      else if b = 123 then
        match skipWs rest with
        | [] => none
        | b2 :: r2 =>
          if b2 = 125 then some (Json.obj JsonObj.nil, r2)
          else
            match parseFields fuel (b2 :: r2) with
            | some (o, r3) => some (Json.obj o, r3)
            | none => none
      else if b = 45 || isDigitB b then parseNum (b :: rest)
      else none
def parseItems : Nat → List Nat → Option (JsonList × List Nat)
  | 0, _ => none
  | fuel + 1, input =>
    match parseV fuel input with
    | none => none
    | some (v, r) =>
      match skipWs r with
      | [] => none
      | b :: r2 =>
        if b = 44 then
          match parseItems fuel r2 with
          | some (tl, r3) => some (JsonList.cons v tl, r3)
          | none => none
        else if b = 93 then some (JsonList.cons v JsonList.nil, r2)
        else none
def parseFields : Nat → List Nat → Option (JsonObj × List Nat)
  | 0, _ => none
  | fuel + 1, input =>
    match skipWs input with
    | [] => none
    | b :: r =>
      if b = 34 then
        match parseStrAux (r.length + 1) r [] with
        | none => none
        | some (k, r2) =>
          match skipWs r2 with
          | [] => none
          | b2 :: r3 =>
            if b2 = 58 then
              match parseV fuel r3 with
              | none => none
              | some (v, r4) =>
                match skipWs r4 with
                | [] => none
                | b3 :: r5 =>
                  if b3 = 44 then
                    match parseFields fuel r5 with
                    | some (tl, r6) => some (JsonObj.cons k v tl, r6)
                    | none => none
                  else if b3 = 125 then some (JsonObj.cons k v JsonObj.nil, r5)
                  else none
            else none
      else none
end

theorem skipWs_cons_false (b : Nat) (l : List Nat) (hb : isWsB b = false) :
    skipWs (b :: l) = b :: l := by
  simp [skipWs, List.dropWhile_cons, hb]

theorem skipWs_cons_true (b : Nat) (l : List Nat) (hb : isWsB b = true) :
    skipWs (b :: l) = skipWs l := by
  simp [skipWs, List.dropWhile_cons, hb]

theorem parseV_ws (fuel b : Nat) (l : List Nat) (hb : isWsB b = true) :
    parseV fuel (b :: l) = parseV fuel l := by
  cases fuel with
  | zero => rfl
  | succ f =>
    simp only [parseV, skipWs_cons_true b l hb]

theorem takeWhile_all_append (p : Nat → Bool) (l r : List Nat)
    (hl : ∀ x ∈ l, p x = true)
    (hr : ∀ b ∈ r.head?, p b = false) :
    (l ++ r).takeWhile p = l ∧ (l ++ r).dropWhile p = r := by
  induction l with
  | nil =>
    simp only [List.nil_append]
    cases r with
    | nil => simp
    | cons b rs =>
      have hb : p b = false := hr b (by simp)
      simp [List.takeWhile_cons, List.dropWhile_cons, hb]
  | cons x xs ih =>
    have hx : p x = true := hl x (List.mem_cons_self _ _)
    have hih := ih fun y hy => hl y (List.mem_cons_of_mem _ hy)
    simp [List.takeWhile_cons, List.dropWhile_cons, hx, hih.1, hih.2]

theorem printNatBytes_isDigit (n : Nat) : ∀ x ∈ printNatBytes n, isDigitB x = true := by
  intro x hx
  have := printNatBytes_digits n x hx
  simp only [isDigitB, Bool.and_eq_true, decide_eq_true_eq]
  omega

theorem parseNum_print (n : Int) (rest : List Nat)
    (hr : ∀ b ∈ rest.head?, isDigitB b = false) :
    parseNum (printIntBytes n ++ rest) = some (Json.num n, rest) := by
  by_cases hneg : n < 0
  · have htd := takeWhile_all_append isDigitB (printNatBytes (-n).toNat) rest
      (printNatBytes_isDigit _) hr
    have hne : (printNatBytes (-n).toNat).isEmpty = false := by
      cases hpn : printNatBytes (-n).toNat with
      | nil => exact absurd hpn (printNatBytes_ne_nil _)
      | cons a l => rfl
    have hcast : (((-n).toNat : Int)) = -n := Int.toNat_of_nonneg (by omega)
    simp only [printIntBytes, if_pos hneg, List.cons_append, parseNum]
    rw [if_pos trivial, htd.1, htd.2]
    simp [hne, digitsVal_printNatBytes, hcast]
  · obtain ⟨b, l, hbl⟩ := List.exists_cons_of_ne_nil (printNatBytes_ne_nil n.toNat)
    have hdig : 48 ≤ b ∧ b ≤ 57 :=
      printNatBytes_digits n.toNat b (by rw [hbl]; exact List.mem_cons_self _ _)
    have htd := takeWhile_all_append isDigitB (printNatBytes n.toNat) rest
      (printNatBytes_isDigit _) hr
    have hne : (printNatBytes n.toNat).isEmpty = false := by
      cases hpn : printNatBytes n.toNat with
      | nil => exact absurd hpn (printNatBytes_ne_nil _)
      | cons a l2 => rfl
    have hcast : ((n.toNat : Int)) = n := Int.toNat_of_nonneg (by omega)
    simp only [printIntBytes, if_neg hneg]
    rw [hbl, List.cons_append]
    simp only [parseNum]
    rw [if_neg (by omega : ¬b = 45), ← List.cons_append, ← hbl, htd.1, htd.2]
    simp [hne, digitsVal_printNatBytes, hcast]

theorem hexValB_hexDigitByte : ∀ d : Nat, d < 16 → hexValB (hexDigitByte d) = some d := by
  decide

theorem hexVal4_hex4 (n : Nat) (h : n < 65536) :
    hexVal4 (hexDigitByte (n / 4096 % 16)) (hexDigitByte (n / 256 % 16))
      (hexDigitByte (n / 16 % 16)) (hexDigitByte (n % 16)) = some n := by
  unfold hexVal4
  rw [hexValB_hexDigitByte _ (by omega), hexValB_hexDigitByte _ (by omega),
    hexValB_hexDigitByte _ (by omega), hexValB_hexDigitByte _ (by omega)]
  show some (n / 4096 % 16 * 4096 + n / 256 % 16 * 256 + n / 16 % 16 * 16 + n % 16)
    = some n
  exact congrArg some (by omega)

theorem char_valid_range (c : Char) :
    c.toNat < 55296 ∨ (57343 < c.toNat ∧ c.toNat < 1114112) := by
  have h := c.valid
  simpa [UInt32.isValidChar, Nat.isValidChar] using h

theorem unescape1_u (r : List Nat) : unescape1 (117 :: r) = unescapeU r := rfl

theorem unescapeU_cons (d1 d2 d3 d4 : Nat) (r : List Nat) :
    unescapeU (d1 :: d2 :: d3 :: d4 :: r) = unescapeCode (hexVal4 d1 d2 d3 d4) r := rfl

theorem unescapeCode_some (code : Nat) (r : List Nat) :
    unescapeCode (some code) r =
      (if 55296 ≤ code ∧ code < 56320 then unescapeLow code r
       else if 56320 ≤ code ∧ code < 57344 then none
       else some (Char.ofNat code, r)) := rfl

theorem unescapeLow_cons (code e1 e2 e3 e4 : Nat) (r : List Nat) :
    unescapeLow code (92 :: 117 :: e1 :: e2 :: e3 :: e4 :: r)
      = unescapeLow2 code (hexVal4 e1 e2 e3 e4) r := rfl

theorem unescapeLow2_some (code lo : Nat) (r : List Nat) :
    unescapeLow2 code (some lo) r =
      (if 56320 ≤ lo ∧ lo < 57344 then
        some (Char.ofNat (65536 + (code - 55296) * 1024 + (lo - 56320)), r)
       else none) := rfl

theorem parseStrAux_close (fuel : Nat) (t : List Nat) (acc : List Char) :
    parseStrAux (fuel + 1) (34 :: t) acc = some (String.mk acc.reverse, t) := by
  simp only [parseStrAux]
  rw [if_pos trivial]

theorem parseStrAux_backslash (fuel : Nat) (r : List Nat) (acc : List Char) :
    parseStrAux (fuel + 1) (92 :: r) acc =
      (match unescape1 r with
       | some (c, rest2) => parseStrAux fuel rest2 (c :: acc)
       | none => none) := by
  simp only [parseStrAux]
  rw [if_neg (by decide : ¬(92 : Nat) = 34), if_pos trivial]

theorem parseStrAux_backslash_some (fuel : Nat) (r r2 : List Nat) (acc : List Char)
    (c : Char) (h : unescape1 r = some (c, r2)) :
    parseStrAux (fuel + 1) (92 :: r) acc = parseStrAux fuel r2 (c :: acc) := by
  rw [parseStrAux_backslash, h]

theorem parseStrAux_lit (fuel b : Nat) (t : List Nat) (acc : List Char)
    (h1 : ¬b = 34) (h2 : ¬b = 92) (h3 : 32 ≤ b ∧ b ≤ 126) :
    parseStrAux (fuel + 1) (b :: t) acc = parseStrAux fuel t (Char.ofNat b :: acc) := by
  simp only [parseStrAux]
  rw [if_neg h1, if_neg h2, if_pos h3]

/-- The escape of one character parses back to exactly that character. -/
theorem parseStrAux_escape (fuel : Nat) (c : Char) (t : List Nat) (acc : List Char) :
    parseStrAux (fuel + 1) (escapeChar c ++ t) acc = parseStrAux fuel t (c :: acc) := by
  have hvr := char_valid_range c
  have hofn : Char.ofNat c.toNat = c := Char.ofNat_toNat c
  by_cases h34 : c.toNat = 34
  · have he : escapeChar c = [92, 34] := by simp [escapeChar, h34]
    rw [h34] at hofn
    rw [he, List.cons_append, List.cons_append, List.nil_append,
      parseStrAux_backslash_some fuel (34 :: t) t acc (Char.ofNat 34) rfl, hofn]
  · by_cases h92 : c.toNat = 92
    · have he : escapeChar c = [92, 92] := by simp [escapeChar, h34, h92]
      rw [h92] at hofn
      rw [he, List.cons_append, List.cons_append, List.nil_append,
        parseStrAux_backslash_some fuel (92 :: t) t acc (Char.ofNat 92) rfl, hofn]
    · by_cases h8 : c.toNat = 8
      · have he : escapeChar c = [92, 98] := by simp [escapeChar, h34, h92, h8]
        rw [h8] at hofn
        rw [he, List.cons_append, List.cons_append, List.nil_append,
          parseStrAux_backslash_some fuel (98 :: t) t acc (Char.ofNat 8) rfl, hofn]
      · by_cases h9 : c.toNat = 9
        · have he : escapeChar c = [92, 116] := by simp [escapeChar, h34, h92, h8, h9]
          rw [h9] at hofn
          rw [he, List.cons_append, List.cons_append, List.nil_append,
            parseStrAux_backslash_some fuel (116 :: t) t acc (Char.ofNat 9) rfl, hofn]
        · by_cases h10 : c.toNat = 10
          · have he : escapeChar c = [92, 110] := by
              simp [escapeChar, h34, h92, h8, h9, h10]
            rw [h10] at hofn
            rw [he, List.cons_append, List.cons_append, List.nil_append,
              parseStrAux_backslash_some fuel (110 :: t) t acc (Char.ofNat 10) rfl, hofn]
          · by_cases h12 : c.toNat = 12
            · have he : escapeChar c = [92, 102] := by
                simp [escapeChar, h34, h92, h8, h9, h10, h12]
              rw [h12] at hofn
              rw [he, List.cons_append, List.cons_append, List.nil_append,
                parseStrAux_backslash_some fuel (102 :: t) t acc (Char.ofNat 12) rfl, hofn]
            · by_cases h13 : c.toNat = 13
              · have he : escapeChar c = [92, 114] := by
                  simp [escapeChar, h34, h92, h8, h9, h10, h12, h13]
                rw [h13] at hofn
                rw [he, List.cons_append, List.cons_append, List.nil_append,
                  parseStrAux_backslash_some fuel (114 :: t) t acc (Char.ofNat 13) rfl,
                  hofn]
              · by_cases h32 : c.toNat < 32
                · have he : escapeChar c = 92 :: 117 :: hex4 c.toNat := by
                    simp [escapeChar, h34, h92, h8, h9, h10, h12, h13, h32]
                  have hu : unescape1 (117 :: hexDigitByte (c.toNat / 4096 % 16)
                      :: hexDigitByte (c.toNat / 256 % 16) :: hexDigitByte (c.toNat / 16 % 16)
                      :: hexDigitByte (c.toNat % 16) :: t)
                      = some (Char.ofNat c.toNat, t) := by
                    rw [unescape1_u, unescapeU_cons, hexVal4_hex4 c.toNat (by omega),
                      unescapeCode_some, if_neg (by omega), if_neg (by omega)]
                  rw [he, hex4]
                  simp only [List.cons_append, List.nil_append]
                  rw [parseStrAux_backslash_some fuel _ t acc (Char.ofNat c.toNat) hu, hofn]
                · by_cases h127 : c.toNat < 127
                  · have he : escapeChar c = [c.toNat] := by
                      simp [escapeChar, h34, h92, h8, h9, h10, h12, h13, h32, h127]
                    rw [he, List.cons_append, List.nil_append,
                      parseStrAux_lit fuel c.toNat t acc h34 h92 (by omega), hofn]
                  · by_cases hbmp : c.toNat < 65536
                    · have he : escapeChar c = 92 :: 117 :: hex4 c.toNat := by
                        simp [escapeChar, h34, h92, h8, h9, h10, h12, h13, h32, h127, hbmp]
                      have hu : unescape1 (117 :: hexDigitByte (c.toNat / 4096 % 16)
                          :: hexDigitByte (c.toNat / 256 % 16)
                          :: hexDigitByte (c.toNat / 16 % 16)
                          :: hexDigitByte (c.toNat % 16) :: t)
                          = some (Char.ofNat c.toNat, t) := by
                        rw [unescape1_u, unescapeU_cons, hexVal4_hex4 c.toNat (by omega),
                          unescapeCode_some, if_neg (by omega), if_neg (by omega)]
                      rw [he, hex4]
                      simp only [List.cons_append, List.nil_append]
                      rw [parseStrAux_backslash_some fuel _ t acc (Char.ofNat c.toNat) hu,
                        hofn]
                    · have hdiv : (c.toNat - 65536) / 1024 < 1024 :=
                        Nat.div_lt_of_lt_mul (by omega)
                      have hmod : (c.toNat - 65536) % 1024 < 1024 := Nat.mod_lt _ (by omega)
                      have he : escapeChar c
                          = (92 :: 117 :: hex4 (55296 + (c.toNat - 65536) / 1024)) ++
                            (92 :: 117 :: hex4 (56320 + (c.toNat - 65536) % 1024)) := by
                        simp [escapeChar, h34, h92, h8, h9, h10, h12, h13, h32, h127, hbmp]
                      have harg : 65536 + (55296 + (c.toNat - 65536) / 1024 - 55296) * 1024
                          + (56320 + (c.toNat - 65536) % 1024 - 56320) = c.toNat := by
                        have hdm := Nat.div_add_mod (c.toNat - 65536) 1024
                        omega
                      have hu : unescape1 (117
                          :: hexDigitByte ((55296 + (c.toNat - 65536) / 1024) / 4096 % 16)
                          :: hexDigitByte ((55296 + (c.toNat - 65536) / 1024) / 256 % 16)
                          :: hexDigitByte ((55296 + (c.toNat - 65536) / 1024) / 16 % 16)
                          :: hexDigitByte ((55296 + (c.toNat - 65536) / 1024) % 16)
                          :: 92 :: 117
                          :: hexDigitByte ((56320 + (c.toNat - 65536) % 1024) / 4096 % 16)
                          :: hexDigitByte ((56320 + (c.toNat - 65536) % 1024) / 256 % 16)
                          :: hexDigitByte ((56320 + (c.toNat - 65536) % 1024) / 16 % 16)
                          :: hexDigitByte ((56320 + (c.toNat - 65536) % 1024) % 16) :: t)
                          = some (Char.ofNat c.toNat, t) := by
                        rw [unescape1_u, unescapeU_cons, hexVal4_hex4 _ (by omega),
                          unescapeCode_some, if_pos (by omega), unescapeLow_cons,
                          hexVal4_hex4 _ (by omega), unescapeLow2_some,
                          if_pos (by omega), harg]
                      rw [he, hex4, hex4]
                      simp only [List.cons_append, List.nil_append, List.append_assoc]
                      rw [parseStrAux_backslash_some fuel _ t acc (Char.ofNat c.toNat) hu,
                        hofn]

/-- The printed body of a string literal parses back to that string. -/
theorem parseStrAux_escStr (l : List Char) (t : List Nat) :
    ∀ (acc : List Char) (fuel : Nat), l.length < fuel →
      parseStrAux fuel (escStr l ++ 34 :: t) acc
        = some (String.mk (acc.reverse ++ l), t) := by
  induction l with
  | nil =>
    intro acc fuel hf
    obtain ⟨f, rfl⟩ : ∃ k, fuel = k + 1 := ⟨fuel - 1, by omega⟩
    simp only [escStr, List.nil_append]
    rw [parseStrAux_close]
    simp
  | cons c cs ih =>
    intro acc fuel hf
    obtain ⟨f, rfl⟩ : ∃ k, fuel = k + 1 := ⟨fuel - 1, by omega⟩
    rw [escStr, List.append_assoc, parseStrAux_escape, ih (c :: acc) f (by
      simp only [List.length_cons] at hf
      omega)]
    simp

theorem escapeChar_length_pos (c : Char) : 0 < (escapeChar c).length := by
  simp only [escapeChar]
  split
  · simp
  · split
    · simp
    · split
      · simp
      · split
        · simp
        · split
          · simp
          · split
            · simp
            · split
              · simp
              · split
                · simp [hex4]
                · split
                  · simp
                  · split
                    · simp [hex4]
                    · simp [hex4]

theorem escStr_length_ge (l : List Char) : l.length ≤ (escStr l).length := by
  induction l with
  | nil => simp [escStr]
  | cons c cs ih =>
    have h1 := escapeChar_length_pos c
    simp only [escStr, List.length_append, List.length_cons]
    omega

theorem printIntBytes_head (n : Int) :
    ∃ b l, printIntBytes n = b :: l ∧ (b = 45 ∨ (48 ≤ b ∧ b ≤ 57)) := by
  by_cases hneg : n < 0
  · exact ⟨45, printNatBytes (-n).toNat, by simp [printIntBytes, hneg], Or.inl rfl⟩
  · obtain ⟨b, l, hbl⟩ := List.exists_cons_of_ne_nil (printNatBytes_ne_nil n.toNat)
    exact ⟨b, l, by simp [printIntBytes, hneg, hbl],
      Or.inr (printNatBytes_digits _ b (by rw [hbl]; exact List.mem_cons_self _ _))⟩

theorem printJson_head (j : Json) :
    ∃ b l, printJson j = b :: l ∧ isWsB b = false ∧ ¬b = 93 ∧ ¬b = 125 := by
  cases j with
  | null => exact ⟨110, _, rfl, by decide, by decide, by decide⟩
  | bool bb =>
    cases bb with
    | false => exact ⟨102, _, rfl, by decide, by decide, by decide⟩
    | true => exact ⟨116, _, rfl, by decide, by decide, by decide⟩
  | num n =>
    obtain ⟨b, l, hbl, hb⟩ := printIntBytes_head n
    refine ⟨b, l, hbl, ?_, ?_, ?_⟩
    · rcases hb with h | h <;> (simp [isWsB]; omega)
    · rcases hb with h | h <;> omega
    · rcases hb with h | h <;> omega
  | str s => exact ⟨34, _, rfl, by decide, by decide, by decide⟩
  | arr items =>
    cases items with
    | nil => exact ⟨91, _, rfl, by decide, by decide, by decide⟩
    | cons hd tl => exact ⟨91, _, rfl, by decide, by decide, by decide⟩
  | obj fields =>
    cases fields with
    | nil => exact ⟨123, _, rfl, by decide, by decide, by decide⟩
    | cons k v tl => exact ⟨123, _, rfl, by decide, by decide, by decide⟩

theorem printJson_length_pos (j : Json) : 0 < (printJson j).length := by
  obtain ⟨b, l, hbl, -, -, -⟩ := printJson_head j
  rw [hbl]
  simp

theorem printItems_length_pos (t : JsonList) : 0 < (printItems t).length := by
  cases t <;> simp [printItems]

theorem printFields_length_pos (t : JsonObj) : 0 < (printFields t).length := by
  cases t <;> simp [printFields]

theorem printItems_headNotDig (t : JsonList) (rest : List Nat) :
    ∀ b ∈ (printItems t ++ rest).head?, isDigitB b = false := by
  cases t with
  | nil =>
    intro b hb
    rw [show printItems JsonList.nil ++ rest = 93 :: rest from rfl] at hb
    simp at hb
    subst hb
    decide
  | cons hd tl =>
    intro b hb
    rw [show printItems (JsonList.cons hd tl) ++ rest
      = 44 :: (32 :: ((printJson hd ++ printItems tl) ++ rest)) from rfl] at hb
    simp at hb
    subst hb
    decide

theorem printFields_headNotDig (t : JsonObj) (rest : List Nat) :
    ∀ b ∈ (printFields t ++ rest).head?, isDigitB b = false := by
  cases t with
  | nil =>
    intro b hb
    rw [show printFields JsonObj.nil ++ rest = 125 :: rest from rfl] at hb
    simp at hb
    subst hb
    decide
  | cons k v tl =>
    intro b hb
    rw [show printFields (JsonObj.cons k v tl) ++ rest
      = 44 :: (32 :: ((printKey k ++ (printJson v ++ printFields tl)) ++ rest))
      from rfl] at hb
    simp at hb
    subst hb
    decide

theorem parseV_print_null (fuel : Nat) (rest : List Nat) :
    parseV (fuel + 1) (printJson Json.null ++ rest) = some (Json.null, rest) := by
  show parseV (fuel + 1) (110 :: 117 :: 108 :: 108 :: rest) = some (Json.null, rest)
  simp only [parseV, skipWs_cons_false 110 _ (by decide)]
  simp [expectBytes]

theorem parseV_print_true (fuel : Nat) (rest : List Nat) :
    parseV (fuel + 1) (printJson (Json.bool true) ++ rest) = some (Json.bool true, rest) := by
  show parseV (fuel + 1) (116 :: 114 :: 117 :: 101 :: rest) = some (Json.bool true, rest)
  simp only [parseV, skipWs_cons_false 116 _ (by decide)]
  simp [expectBytes]

theorem parseV_print_false (fuel : Nat) (rest : List Nat) :
    parseV (fuel + 1) (printJson (Json.bool false) ++ rest)
      = some (Json.bool false, rest) := by
  show parseV (fuel + 1) (102 :: 97 :: 108 :: 115 :: 101 :: rest)
    = some (Json.bool false, rest)
  simp only [parseV, skipWs_cons_false 102 _ (by decide)]
  simp [expectBytes]

theorem parseV_print_num (fuel : Nat) (n : Int) (rest : List Nat)
    (hr : ∀ b ∈ rest.head?, isDigitB b = false) :
    parseV (fuel + 1) (printJson (Json.num n) ++ rest) = some (Json.num n, rest) := by
  obtain ⟨b, l, hbl, hb⟩ := printIntBytes_head n
  have hws : isWsB b = false := by
    rcases hb with h | h <;> (simp [isWsB]; omega)
  have hnum : (decide (b = 45) || isDigitB b) = true := by
    rcases hb with h | h
    · simp [h]
    · simp only [isDigitB, Bool.or_eq_true, Bool.and_eq_true, decide_eq_true_eq]
      right
      omega
  show parseV (fuel + 1) (printIntBytes n ++ rest) = some (Json.num n, rest)
  rw [hbl, List.cons_append]
  simp only [parseV, skipWs_cons_false b _ hws]
  rw [if_neg (by rcases hb with h | h <;> omega : ¬b = 110),
    if_neg (by rcases hb with h | h <;> omega : ¬b = 116),
    if_neg (by rcases hb with h | h <;> omega : ¬b = 102),
    if_neg (by rcases hb with h | h <;> omega : ¬b = 34),
    if_neg (by rcases hb with h | h <;> omega : ¬b = 91),
    if_neg (by rcases hb with h | h <;> omega : ¬b = 123),
    if_pos hnum, ← List.cons_append, ← hbl]
  exact parseNum_print n rest hr

theorem parseV_print_str (fuel : Nat) (s : String) (rest : List Nat) :
    parseV (fuel + 1) (printJson (Json.str s) ++ rest) = some (Json.str s, rest) := by
  have hshape : printJson (Json.str s) ++ rest
      = 34 :: (escStr s.data ++ (34 :: rest)) := by
    show (34 :: escStr s.data ++ [34]) ++ rest = 34 :: (escStr s.data ++ (34 :: rest))
    simp [List.append_assoc]
  rw [hshape]
  simp only [parseV, skipWs_cons_false 34 _ (by decide)]
  rw [parseStrAux_escStr s.data rest [] _ (by
    have := escStr_length_ge s.data
    simp only [List.length_append, List.length_cons]
    omega)]
  simp

theorem parseFields_ws (fuel b : Nat) (l : List Nat) (hb : isWsB b = true) :
    parseFields fuel (b :: l) = parseFields fuel l := by
  cases fuel with
  | zero => rfl
  | succ f => simp only [parseFields, skipWs_cons_true b l hb]

theorem printKey_length (k : String) :
    (printKey k).length = (escStr k.data).length + 4 := by
  simp [printKey]

/-- Round-trip of the printer and parser at every fuel level: a printed
value followed by any continuation that does not start with a digit
parses back to exactly that value (and likewise for the printed element
and field tails, which may carry the one-space separator). -/
theorem parse_print (fuel : Nat) :
    (∀ (j : Json) (rest : List Nat), (printJson j).length < fuel →
      (∀ b ∈ rest.head?, isDigitB b = false) →
      parseV fuel (printJson j ++ rest) = some (j, rest)) ∧
    (∀ (hd : Json) (tl : JsonList) (rest w : List Nat), (w = [] ∨ w = [32]) →
      (w ++ (printJson hd ++ printItems tl)).length < fuel →
      parseItems fuel ((w ++ (printJson hd ++ printItems tl)) ++ rest)
        = some (JsonList.cons hd tl, rest)) ∧
    (∀ (k : String) (v : Json) (tl : JsonObj) (rest w : List Nat), (w = [] ∨ w = [32]) →
      (w ++ (printKey k ++ (printJson v ++ printFields tl))).length < fuel →
      parseFields fuel ((w ++ (printKey k ++ (printJson v ++ printFields tl))) ++ rest)
        = some (JsonObj.cons k v tl, rest)) := by
  induction fuel with
  | zero =>
    refine ⟨?_, ?_, ?_⟩
    · intro j rest h hr
      exact absurd h (by omega)
    · intro hd tl rest w hw h
      exact absurd h (by omega)
    · intro k v tl rest w hw h
      exact absurd h (by omega)
  | succ fuel ih =>
    obtain ⟨ihV, ihI, ihF⟩ := ih
    refine ⟨?_, ?_, ?_⟩
    · intro j rest hlen hr
      cases j with
      | null => exact parseV_print_null fuel rest
      | bool bb =>
        cases bb with
        | false => exact parseV_print_false fuel rest
        | true => exact parseV_print_true fuel rest
      | num n => exact parseV_print_num fuel n rest hr
      | str s => exact parseV_print_str fuel s rest
      | arr items =>
        cases items with
        | nil =>
          show parseV (fuel + 1) (91 :: (93 :: rest)) = some (Json.arr JsonList.nil, rest)
          simp only [parseV, skipWs_cons_false 91 _ (by decide),
            skipWs_cons_false 93 _ (by decide)]
          norm_num
        | cons hd tl =>
          obtain ⟨b2, l2, hbl2, hws2, h93, h125⟩ := printJson_head hd
          have hsh : printJson (Json.arr (JsonList.cons hd tl))
              = 91 :: (printJson hd ++ printItems tl) := rfl
          rw [hsh] at hlen ⊢
          rw [List.cons_append]
          have hX : (printJson hd ++ printItems tl) ++ rest
              = b2 :: (l2 ++ (printItems tl ++ rest)) := by
            rw [hbl2]
            simp [List.append_assoc]
          rw [hX]
          simp only [parseV, skipWs_cons_false 91 _ (by decide),
            skipWs_cons_false b2 _ hws2]
          rw [if_neg (by decide : ¬(91 : Nat) = 110), if_neg (by decide : ¬(91 : Nat) = 116),
            if_neg (by decide : ¬(91 : Nat) = 102), if_neg (by decide : ¬(91 : Nat) = 34),
            if_pos trivial, if_neg h93, ← hX]
          have hI := ihI hd tl rest [] (Or.inl rfl) (by
            simp only [List.nil_append]
            simp only [List.length_cons] at hlen
            omega)
          rw [List.nil_append] at hI
          rw [hI]
      | obj fields =>
        cases fields with
        | nil =>
          show parseV (fuel + 1) (123 :: (125 :: rest)) = some (Json.obj JsonObj.nil, rest)
          simp only [parseV, skipWs_cons_false 123 _ (by decide),
            skipWs_cons_false 125 _ (by decide)]
          norm_num
        | cons k v tl =>
          have hsh : printJson (Json.obj (JsonObj.cons k v tl))
              = 123 :: (printKey k ++ (printJson v ++ printFields tl)) := rfl
          rw [hsh] at hlen ⊢
          rw [List.cons_append]
          have hX : (printKey k ++ (printJson v ++ printFields tl)) ++ rest
              = 34 :: ((escStr k.data ++ [34, 58, 32])
                  ++ ((printJson v ++ printFields tl) ++ rest)) := by
            show ((34 :: (escStr k.data ++ [34, 58, 32]))
              ++ (printJson v ++ printFields tl)) ++ rest = _
            simp [List.append_assoc]
          rw [hX]
          simp only [parseV, skipWs_cons_false 123 _ (by decide),
            skipWs_cons_false 34 _ (by decide)]
          rw [if_neg (by decide : ¬(123 : Nat) = 110),
            if_neg (by decide : ¬(123 : Nat) = 116), if_neg (by decide : ¬(123 : Nat) = 102),
            if_neg (by decide : ¬(123 : Nat) = 34), if_neg (by decide : ¬(123 : Nat) = 91),
            if_pos trivial, if_neg (by decide : ¬(34 : Nat) = 125), ← hX]
          have hF := ihF k v tl rest [] (Or.inl rfl) (by
            simp only [List.nil_append]
            simp only [List.length_cons] at hlen
            omega)
          rw [List.nil_append] at hF
          rw [hF]
    · intro hd tl rest w hw hlen
      have hlenV : (printJson hd).length < fuel := by
        have h1 := printItems_length_pos tl
        rcases hw with h | h <;> subst h <;>
          (simp only [List.length_append, List.length_nil, List.length_cons] at hlen;
            omega)
      have hVin : parseV fuel ((w ++ (printJson hd ++ printItems tl)) ++ rest)
          = some (hd, printItems tl ++ rest) := by
        rcases hw with h | h <;> subst h
        · simp only [List.nil_append, List.append_assoc]
          exact ihV hd (printItems tl ++ rest) hlenV (printItems_headNotDig tl rest)
        · rw [show (([32] ++ (printJson hd ++ printItems tl)) ++ rest)
            = 32 :: ((printJson hd ++ printItems tl) ++ rest) from by simp,
            parseV_ws fuel 32 _ (by decide), List.append_assoc]
          exact ihV hd (printItems tl ++ rest) hlenV (printItems_headNotDig tl rest)
      simp only [parseItems, hVin]
      cases tl with
      | nil =>
        simp only [show printItems JsonList.nil ++ rest = 93 :: rest from rfl,
          skipWs_cons_false 93 rest (by decide)]
        norm_num
      | cons h2 t2 =>
        simp only [show printItems (JsonList.cons h2 t2) ++ rest
            = 44 :: (32 :: ((printJson h2 ++ printItems t2) ++ rest)) from rfl,
          skipWs_cons_false 44 _ (by decide)]
        have hI2 := ihI h2 t2 rest [32] (Or.inr rfl) (by
          have hsh2 : (printItems (JsonList.cons h2 t2)).length
              = 2 + (printJson h2).length + (printItems t2).length := by
            show (44 :: 32 :: (printJson h2 ++ printItems t2)).length = _
            simp [List.length_append]
            omega
          rcases hw with h | h <;> subst h <;>
            (simp only [List.length_append, List.length_nil, List.length_cons,
              hsh2] at hlen ⊢; omega))
        rw [show ([32] ++ (printJson h2 ++ printItems t2)) ++ rest
          = 32 :: ((printJson h2 ++ printItems t2) ++ rest) from by simp] at hI2
        simp only [if_true, hI2]
    · intro k v tl rest w hw hlen
      have hlenV : (printJson v).length < fuel := by
        have h1 := printFields_length_pos tl
        have h2 := printKey_length k
        rcases hw with h | h <;> subst h <;>
          (simp only [List.length_append, List.length_nil, List.length_cons, h2] at hlen;
            omega)
      have hmain : parseFields (fuel + 1)
          ((printKey k ++ (printJson v ++ printFields tl)) ++ rest)
          = some (JsonObj.cons k v tl, rest) := by
        have hX : (printKey k ++ (printJson v ++ printFields tl)) ++ rest
            = 34 :: (escStr k.data
                ++ (34 :: 58 :: 32 :: ((printJson v ++ printFields tl) ++ rest))) := by
          show ((34 :: (escStr k.data ++ [34, 58, 32]))
            ++ (printJson v ++ printFields tl)) ++ rest = _
          simp [List.append_assoc]
        rw [hX]
        simp only [parseFields, skipWs_cons_false 34 _ (by decide)]
        rw [parseStrAux_escStr k.data
          (58 :: 32 :: ((printJson v ++ printFields tl) ++ rest)) [] _ (by
            have := escStr_length_ge k.data
            simp only [List.length_append, List.length_cons]
            omega)]
        simp only [if_true, List.reverse_nil, List.nil_append,
          skipWs_cons_false 58 _ (by decide)]
        rw [parseV_ws fuel 32 _ (by decide), List.append_assoc]
        have hV := ihV v (printFields tl ++ rest) hlenV (printFields_headNotDig tl rest)
        simp only [hV]
        cases tl with
        | nil =>
          simp only [show printFields JsonObj.nil ++ rest = 125 :: rest from rfl,
            skipWs_cons_false 125 rest (by decide)]
          norm_num
        | cons k2 v2 t2 =>
          simp only [show printFields (JsonObj.cons k2 v2 t2) ++ rest
              = 44 :: (32 :: ((printKey k2 ++ (printJson v2 ++ printFields t2)) ++ rest))
              from rfl,
            skipWs_cons_false 44 _ (by decide)]
          have hF2 := ihF k2 v2 t2 rest [32] (Or.inr rfl) (by
            have hsh2 : (printFields (JsonObj.cons k2 v2 t2)).length
                = 2 + (printKey k2).length + (printJson v2).length
                  + (printFields t2).length := by
              show (44 :: 32 :: (printKey k2 ++ (printJson v2 ++ printFields t2))).length
                = _
              simp [List.length_append]
              omega
            rcases hw with h | h <;> subst h <;>
              (simp only [List.length_append, List.length_nil, List.length_cons,
                hsh2] at hlen ⊢; omega))
          rw [show ([32] ++ (printKey k2 ++ (printJson v2 ++ printFields t2))) ++ rest
            = 32 :: ((printKey k2 ++ (printJson v2 ++ printFields t2)) ++ rest)
            from by simp] at hF2
          simp only [if_true, hF2]
      rcases hw with h | h <;> subst h
      · simpa using hmain
      · rw [show (([32] ++ (printKey k ++ (printJson v ++ printFields tl))) ++ rest)
          = 32 :: ((printKey k ++ (printJson v ++ printFields tl)) ++ rest) from by simp,
          parseFields_ws (fuel + 1) 32 _ (by decide)]
        exact hmain

/- ### Message framing (`shrd/protocol.py`, lines 46-100)

`Message.to_bytes` serialises `{"version": 1, "type": t, "payload": p}` with
`json.dumps` and prefixes the 4-byte big-endian length (`struct.pack(">I", ...)`).
`Message.from_bytes` runs `json.loads`, looks up `header["type"]` (a `dict` from
`json.loads` keeps the last value of a duplicated key), converts it with the
`MessageType` enumeration, and defaults a missing `"payload"` to `{}`.
`read_message` does `readexactly(4)`, checks the 10 MiB header limit, then
`readexactly(header_len)`; the `except asyncio.IncompleteReadError: return None`
clause covers BOTH exact reads, while `ValueError` from the limit check and any
decoding exception propagate.  The stream is modelled as the finite list of bytes
still available before EOF; a `readexactly` past the end is the incomplete read. -/

/-- Wire message: type tag plus JSON payload (`payload: dict` is stored untouched,
and `from_bytes` never checks that the decoded payload is an object). -/
structure Message where
  type : MessageType
  payload : Json

/-- `MessageType(n)`: value lookup in the `IntEnum`, `ValueError` as `none`. -/
def msgTypeOfInt (n : Int) : Option MessageType :=
  if n = 1 then some MessageType.HELLO
  else if n = 2 then some MessageType.HELLO_ACK
  else if n = 10 then some MessageType.FILE_OFFER
  else if n = 11 then some MessageType.FILE_ACCEPT
  else if n = 12 then some MessageType.FILE_REJECT
  else if n = 13 then some MessageType.FILE_CHUNK
  else if n = 14 then some MessageType.FILE_COMPLETE
  else if n = 15 then some MessageType.FILE_ERROR
  else if n = 20 then some MessageType.LIST_DIR_REQUEST
  else if n = 21 then some MessageType.LIST_DIR_RESPONSE
  else if n = 22 then some MessageType.FILE_DOWNLOAD_REQUEST
  else if n = 23 then some MessageType.FILE_DOWNLOAD_START
  else if n = 30 then some MessageType.PING
  else if n = 31 then some MessageType.PONG
  else if n = 99 then some MessageType.ERROR
  else none

/-- Key lookup in a decoded object; `json.loads` builds a `dict`, so a duplicated
key keeps its last occurrence. -/
def objGetLast (key : String) : JsonObj → Option Json
  | JsonObj.nil => none
  | JsonObj.cons k v tl =>
    match objGetLast key tl with
    | some r => some r
    | none => if k = key then some v else none

/-- The header object `{"version": 1, "type": self.type, "payload": self.payload}`
built by `Message.to_bytes` (insertion order is preserved by `json.dumps`). -/
def headerJson (m : Message) : Json :=
  Json.obj (JsonObj.cons "version" (Json.num 1)
    (JsonObj.cons "type" (Json.num (m.type.code : Int))
      (JsonObj.cons "payload" m.payload JsonObj.nil)))

/-- The UTF-8 bytes of the dumped header. -/
def headerBytes (m : Message) : List Nat := printJson (headerJson m)

/-- `struct.pack(">I", n)`: 4-byte big-endian encoding. -/
def be32 (n : Nat) : List Nat :=
  [n / 16777216 % 256, n / 65536 % 256, n / 256 % 256, n % 256]

/-- `struct.unpack(">I", l)[0]` for a 4-byte list. -/
def be32val (l : List Nat) : Nat := l.foldl (fun a b => a * 256 + b) 0

/-- `Message.to_bytes` (protocol.py lines 52-58). -/
def Message.to_bytes (m : Message) : List Nat :=
  be32 (headerBytes m).length ++ headerBytes m

/-- The dict-processing half of `Message.from_bytes` (lines 63-66):
`MessageType(header["type"])` and `header.get("payload", {})`; a missing or
non-integer `"type"`, an unknown code, or a non-object document raises
(`KeyError` / `TypeError` / `ValueError`), modelled as `none`. -/
def decodeHeader : Json → Option Message
  | Json.obj fields =>
    match objGetLast "type" fields with
    | some (Json.num n) =>
      match msgTypeOfInt n with
      | some t =>
        some { type := t,
               payload := (objGetLast "payload" fields).getD (Json.obj JsonObj.nil) }
      | none => none
    | _ => none
  | _ => none

/-- `Message.from_bytes` (lines 60-66): `json.loads` on the decoded data (which
must consume the whole document up to trailing whitespace) followed by the
header processing; any raised exception is `none`. -/
def Message.from_bytes (data : List Nat) : Option Message :=
  match parseV (data.length + 1) data with
  | some (j, r) => if skipWs r = [] then decodeHeader j else none
  | none => none

/-- Raised errors that escape `read_message`. -/
inductive ProtoErr where
  | headerTooLarge
  | malformedHeader
deriving DecidableEq

/-- `read_message` (protocol.py lines 86-100) on the remaining stream bytes:
`readexactly(4)`, the `10 * 1024 * 1024` header limit, `readexactly(header_len)`,
then `Message.from_bytes`.  `asyncio.IncompleteReadError` from either exact read
is caught and yields `None`; the `ValueError` and decoding failures propagate.
Returns the parsed message with the unconsumed tail of the stream. -/
def read_message (input : List Nat) : Except ProtoErr (Option (Message × List Nat)) :=
  if input.length < 4 then Except.ok none
  else
    let hlen := be32val (input.take 4)
    if hlen > 10485760 then Except.error ProtoErr.headerTooLarge
    else
      let body := input.drop 4
      if body.length < hlen then Except.ok none
      else
        match Message.from_bytes (body.take hlen) with
        | some m => Except.ok (some (m, body.drop hlen))
        | none => Except.error ProtoErr.malformedHeader

theorem be32val_be32 (n : Nat) (h : n < 4294967296) : be32val (be32 n) = n := by
  simp only [be32, be32val, List.foldl]
  omega

theorem decodeHeader_headerJson (m : Message) : decodeHeader (headerJson m) = some m := by
  obtain ⟨t, p⟩ := m
  cases t <;> rfl

theorem from_bytes_headerBytes (m : Message) :
    Message.from_bytes (headerBytes m) = some m := by
  have hp := (parse_print ((printJson (headerJson m)).length + 1)).1 (headerJson m) []
    (Nat.lt_succ_self _) (by intro b hb; simp at hb)
  rw [List.append_nil] at hp
  show (match parseV ((printJson (headerJson m)).length + 1) (printJson (headerJson m)) with
    | some (j, r) => if skipWs r = [] then decodeHeader j else none
    | none => none) = some m
  rw [hp]
  show (if skipWs ([] : List Nat) = [] then decodeHeader (headerJson m) else none) = some m
  have hws : skipWs ([] : List Nat) = [] := rfl
  rw [if_pos hws]
  exact decodeHeader_headerJson m

/-- C1: for every well-formed message (a `MessageType` tag and a JSON payload),
reading the framed bytes produced by `Message.to_bytes` from the stream decodes
a message equal to the original — same type, same payload — and leaves exactly
the trailing stream bytes unconsumed.  The only proviso is the one the code
itself imposes: the dumped header fits the 10 MiB limit. -/
theorem message_roundtrip (m : Message) (rest : List Nat)
    (hsize : (headerBytes m).length ≤ 10485760) :
    read_message (Message.to_bytes m ++ rest) = Except.ok (some (m, rest)) := by
  have h4 : (be32 (headerBytes m).length).length = 4 := rfl
  have hval : be32val (be32 (headerBytes m).length) = (headerBytes m).length :=
    be32val_be32 _ (by omega)
  have hT : Message.to_bytes m ++ rest
      = be32 (headerBytes m).length ++ (headerBytes m ++ rest) := by
    simp [Message.to_bytes, List.append_assoc]
  have hL1 : ¬ (be32 (headerBytes m).length ++ (headerBytes m ++ rest)).length < 4 := by
    simp [h4]
  have hL2 : ¬ (headerBytes m).length > 10485760 := by omega
  have hL3 : ¬ (headerBytes m ++ rest).length < (headerBytes m).length := by
    simp
  rw [hT]
  simp only [read_message]
  rw [List.take_left' h4, List.drop_left' h4, hval, if_neg hL1, if_neg hL2, if_neg hL3,
    List.take_left, List.drop_left, from_bytes_headerBytes m]

theorem message_roundtrip_witness :
    (headerBytes ⟨MessageType.PING, Json.obj JsonObj.nil⟩).length ≤ 10485760 ∧
    read_message (Message.to_bytes ⟨MessageType.PING, Json.obj JsonObj.nil⟩ ++ [7, 8])
      = Except.ok (some (⟨MessageType.PING, Json.obj JsonObj.nil⟩, [7, 8])) :=
  ⟨by decide, message_roundtrip ⟨MessageType.PING, Json.obj JsonObj.nil⟩ [7, 8] (by decide)⟩

/-- C2 counterexample: with the 4 length bytes fully read and a declared header
length of 5, the stream ends before the header body.  The claim calls this
mid-frame short read a fatal error, but `read_message` returns a clean
no-message result: the `except asyncio.IncompleteReadError: return None` clause
covers the second `readexactly` as well as the first. -/
theorem read_message_midframe_counterexample :
    read_message [0, 0, 0, 5] = Except.ok none := rfl

/-- C2 (amended): a declared header length above 10 MiB raises a hard protocol
error; a short read before the 4 length bytes are complete yields a clean
no-message result; and a short read mid-frame (length prefix read, header body
incomplete) ALSO yields the clean no-message result rather than a fatal error,
because the incomplete-read handler covers both exact reads. -/
theorem read_message_framing (input : List Nat) :
    (input.length < 4 → read_message input = Except.ok none) ∧
    (4 ≤ input.length → be32val (input.take 4) > 10485760 →
      read_message input = Except.error ProtoErr.headerTooLarge) ∧
    (4 ≤ input.length → ¬ be32val (input.take 4) > 10485760 →
      input.length - 4 < be32val (input.take 4) →
      read_message input = Except.ok none) := by
  refine ⟨?_, ?_, ?_⟩
  · intro h
    simp only [read_message, if_pos h]
  · intro h4 hbig
    simp only [read_message]
    rw [if_neg (by omega), if_pos hbig]
  · intro h4 hbig hshort
    simp only [read_message]
    rw [if_neg (by omega), if_neg hbig,
      if_pos (by simpa [List.length_drop] using hshort)]

theorem read_message_framing_witness :
    read_message [0, 0] = Except.ok none ∧
    read_message [255, 255, 255, 255] = Except.error ProtoErr.headerTooLarge ∧
    read_message [0, 0, 0, 6, 1, 2, 3] = Except.ok none :=
  ⟨(read_message_framing [0, 0]).1 (by decide),
   (read_message_framing [255, 255, 255, 255]).2.1 (by decide) (by decide),
   (read_message_framing [0, 0, 0, 6, 1, 2, 3]).2.2 (by decide) (by decide) (by decide)⟩

end Shrd
